import Mathlib

/-!
Shallow embedding of the task-dependency scheduler of the my_orchestrator
repository (source files src/utility/tasks.py and src/utility/lock.py).

Modelling conventions:
  - A filesystem path is a list of path components (List String); the sweep
    root directory runs/ is the single component list with the word runs.
  - The on-disk state relevant to the scheduler is the set of marker/config
    files, modelled as a list of (directory path, file name) pairs.
  - Python Task objects are shared mutable references; here they live in a
    single list inside the system state and dependencies are list indices,
    so a mutation made through one reference is visible to every holder.
  - The work function (run_fn) of a task returns either an exit code
    (an Option Int: the parent lambda returns None, a leaf returns an int)
    or raises an exception; this outcome is stored per task in runRes.
  - Exceptions raised by shutil.copyfile inside Task.copy_config are caught
    by the source (tasks.py lines 70-79); the per-task flag copyRaises says
    whether the copy operation would raise.
  - The recursion of Task.check_status follows the object graph; the
    embedding uses explicit fuel and returns none when fuel runs out, which
    models nontermination and never happens on states built by discovery.
  - Logging is not modelled; exit(1) (tasks.py line 173) raises SystemExit
    in Python, which propagates through the try/finally of TaskRunner.run,
    so it is modelled as a fatal flag that aborts the run loop.
-/

/-- A file on disk: the directory it lies in, and its file name. -/
abbrev FileEntry := List String × String

/-- Outcome of invoking a run_fn work function: it returns a value
(None for the parent lambda, an integer exit code for a leaf) or raises. -/
inductive RunResult where
  | ret (code : Option Int)
  | raise
deriving DecidableEq

/-- In-memory state of one Task object (tasks.py lines 14-39).
The unused field exit_code (line 37: always None) is omitted. -/
structure TaskState where
  name : List String
  isParent : Bool
  deps : List Nat
  runRes : RunResult
  copyRaises : Bool
  status : Option String
  completed : Bool
deriving DecidableEq

instance : Inhabited TaskState :=
  ⟨⟨[], false, [], RunResult.ret none, false, none, false⟩⟩

/-- The whole mutable world: the TaskRunner task list, the marker/config
files on disk, the lock file (/tmp/task_runner.lock, holding its label when
present), and the trace of run_fn invocations (used to state that a work
function was or was not invoked). -/
structure Sys where
  tasks : List TaskState
  files : List FileEntry
  lock : Option String
  calls : List Nat
deriving DecidableEq

/-- Test whether a file exists (Path(p, f).exists()). -/
def fileExists (fs : List FileEntry) (p : List String) (f : String) : Bool :=
  decide ((p, f) ∈ fs)

/-- Path(p, f).touch(): create the file if absent, keep it otherwise. -/
def touchFile (fs : List FileEntry) (p : List String) (f : String) : List FileEntry :=
  if (p, f) ∈ fs then fs else (p, f) :: fs

/-- Dereference a task index (a Python object reference; indices are in
range in every state built by discovery). -/
def getTask (s : Sys) (i : Nat) : TaskState := s.tasks.getD i default

/-- Mutate the task object behind index i. -/
def setTask (s : Sys) (i : Nat) (f : TaskState → TaskState) : Sys :=
  { s with tasks := s.tasks.set i (f (s.tasks.getD i default)) }

/-! The Execution Lock (src/utility/lock.py). -/

/-- Lock.acquire (lock.py lines 9-22): if the lock file exists, fail;
otherwise create it containing the label of the running invocation. -/
def lockAcquire (s : Sys) (running : String) : Sys × Bool :=
  match s.lock with
  | some _ => (s, false)
  | none => ({ s with lock := some running }, true)

/-- Lock.release (lock.py lines 24-31): remove the lock file if present. -/
def lockRelease (s : Sys) : Sys := { s with lock := none }

/-! Task.copy_config (tasks.py lines 45-79). -/

/-- Path(name).resolve().parent.name. For a single-component path the
resolved parent is the working directory, whose name is not runs. -/
def parentDirName (p : List String) : String := p.dropLast.getLastD "."

/-- Task.copy_config: skipped when the parent directory is the sweep root
(lines 62-65). Each copyfile call sits in its own try/except that logs and
continues (lines 70-79), so a raising copy changes nothing and is NOT
fatal. A successful copy writes used_cfg.yaml into the run directory
(line 71); the second copy (line 76) targets the HEPscore config directory
outside the sweep tree and is not represented in the modelled file list. -/
def copyConfig (s : Sys) (i : Nat) : Sys :=
  if parentDirName (getTask s i).name = "runs" then s
  else if (getTask s i).copyRaises then s
  else { s with files := touchFile s.files (getTask s i).name "used_cfg.yaml" }

/-! Task.check_status (tasks.py lines 81-137). -/

/-- Leaf branch of Task.check_status (lines 123-136): SUCCESS marker first,
then FAILED, else only completed is reset (the status field is left as it
was; the `if self.completed: pass` on line 124 has no effect). -/
def leafCheck (s : Sys) (d : Nat) : Sys :=
  if fileExists s.files (getTask s d).name "SUCCESS" then
    setTask s d (fun u => { u with status := some "SUCCESS", completed := true })
  else if fileExists s.files (getTask s d).name "FAILED" then
    setTask s d (fun u => { u with status := some "FAILED", completed := true })
  else
    setTask s d (fun u => { u with completed := false })

/-- Line 113 of Task.check_status: self.completed = True on the parent. -/
def markParentCompleted (s1 : Sys) (i : Nat) : Sys :=
  setTask s1 i (fun u => { u with completed := true })

/-- Lines 113-122 of Task.check_status, reached only when the dependency
loop ran to completion: mark the parent completed, then set FAILED if a
FAILED marker exists in its directory, else touch SUCCESS and set SUCCESS. -/
def finalizeParent (s1 : Sys) (i : Nat) : Sys :=
  if fileExists (markParentCompleted s1 i).files
      (getTask (markParentCompleted s1 i) i).name "FAILED" then
    setTask (markParentCompleted s1 i) i (fun u => { u with status := some "FAILED" })
  else
    setTask
      { markParentCompleted s1 i with
        files := touchFile (markParentCompleted s1 i).files
          (getTask (markParentCompleted s1 i) i).name "SUCCESS" } i
      (fun u => { u with status := some "SUCCESS" })

/-- The dependency loop of Task.check_status (lines 105-112), parametrised
by the recursive call. For each dependency in order: recursively check it;
if it is not completed, set the parent incomplete and return early (the
Bool result true); if its status is not SUCCESS, touch a FAILED marker in
the parent directory; then continue with the next dependency. -/
def checkDepsLoopWith (check : Nat → Sys → Option Sys) (par : Nat) :
    List Nat → Sys → Option (Sys × Bool)
  | [], s => some (s, false)
  | d :: rest, s =>
    match check d s with
    | none => none
    | some s1 =>
      if (getTask s1 d).completed = false then
        some (setTask s1 par (fun u => { u with completed := false }), true)
      else
        let s2 :=
          if (getTask s1 d).status ≠ some "SUCCESS" then
            { s1 with files := touchFile s1.files (getTask s1 par).name "FAILED" }
          else s1
        checkDepsLoopWith check par rest s2

/-- Task.check_status (lines 104-136). The fuel argument bounds the
recursion depth along the dependency graph; the result none models a
recursion that would not terminate and never occurs on discovered trees. -/
def checkStatus : Nat → Nat → Sys → Option Sys
  | 0, _, _ => none
  | fuel + 1, i, s =>
    if (getTask s i).isParent then
      match checkDepsLoopWith (checkStatus fuel) i (getTask s i).deps s with
      | none => none
      | some (s1, true) => some s1
      | some (s1, false) => some (finalizeParent s1 i)
    else
      some (leafCheck s i)

/-! Task.run (tasks.py lines 140-186). -/

/-- The parent aggregation loop inside Task.run (lines 161-168): starting
from the value returned by run_fn, the first dependency that is not
completed with status SUCCESS forces return code 1; otherwise each
iteration sets it to 0; an empty dependency list leaves it untouched. -/
def aggregateRC (s : Sys) : Option Int → List Nat → Option Int
  | rc, [] => rc
  | _, d :: rest =>
    if (getTask s d).completed = false ∨ (getTask s d).status ≠ some "SUCCESS" then
      some 1
    else aggregateRC s (some 0) rest

/-- Lines 175-186 of Task.run: on return code 0 the unit is marked SUCCESS,
on any other value (None included) it is marked FAILED: the completed and
status fields are set and the marker is touched in the unit directory (the
name read from the task entry, which no earlier step of run changes). -/
def markCompleted (s2 : Sys) (i : Nat) (rc : Option Int) : Sys × Bool :=
  if rc ≠ some 0 then
    (setTask { s2 with files := touchFile s2.files (getTask s2 i).name "FAILED" } i
      (fun u => { u with completed := true, status := some "FAILED" }), false)
  else
    (setTask { s2 with files := touchFile s2.files (getTask s2 i).name "SUCCESS" } i
      (fun u => { u with completed := true, status := some "SUCCESS" }), false)

/-- The state after the pre-run steps of Task.run: the config copy followed
by the invocation of the work function (recorded in calls). -/
def afterPreRun (s : Sys) (i : Nat) : Sys :=
  { copyConfig s i with calls := (copyConfig s i).calls ++ [i] }

/-- Task.run (lines 140-186). Returns the new state and a flag saying
whether the call was fatal (line 173: an exception raised by the work
function is logged and exit(1) terminates the process; no marker is
written on that path). When the task is already completed the call is a
logged no-op (lines 146-151). Otherwise the config is copied, the work
function is invoked (recorded in calls), a parent aggregates its
dependencies, and the outcome is persisted by markCompleted. -/
def taskRun (s : Sys) (i : Nat) : Sys × Bool :=
  if (getTask s i).completed then (s, false)
  else
    match (getTask s i).runRes with
    | RunResult.raise => (afterPreRun s i, true)
    | RunResult.ret c =>
      markCompleted (afterPreRun s i) i
        (if (getTask s i).isParent then aggregateRC (afterPreRun s i) c (getTask s i).deps
         else c)

/-! TaskRunner.run (tasks.py lines 282-303). -/

/-- The inner dependency loop (lines 296-299): run every dependency that is
not yet completed. A fatal task run aborts the whole loop. -/
def runDepsLoop : List Nat → Sys → Sys × Bool
  | [], s => (s, false)
  | d :: rest, s =>
    if (getTask s d).completed = false then
      match taskRun s d with
      | (s1, true) => (s1, true)
      | (s1, false) => runDepsLoop rest s1
    else runDepsLoop rest s

/-- The outer loop over the task list (lines 290-299): a task without
dependencies is run directly; for a task with dependencies only its
not-yet-completed dependencies are run. -/
def runTasksLoop : List Nat → Sys → Sys × Bool
  | [], s => (s, false)
  | i :: rest, s =>
    if (getTask s i).deps = [] then
      match taskRun s i with
      | (s1, true) => (s1, true)
      | (s1, false) => runTasksLoop rest s1
    else
      match runDepsLoop (getTask s i).deps s with
      | (s1, true) => (s1, true)
      | (s1, false) => runTasksLoop rest s1

/-- Result of TaskRunner.run: a returned status code, or a process exit
caused by a propagated fatal error. -/
inductive RunnerResult where
  | ret (code : Int)
  | exited (code : Int)
deriving DecidableEq

/-- TaskRunner.run (lines 282-303): acquire the lock with the tasks
directory as label, returning 1 when it is already held; run the loop
inside try/finally, so the lock is released both on normal completion and
when a fatal error propagates (SystemExit raised by exit(1) runs the
finally block before the process dies); return 0 on the normal path. -/
def runnerRun (tasksDir : String) (s : Sys) : Sys × RunnerResult :=
  match lockAcquire s tasksDir with
  | (s1, false) => (s1, RunnerResult.ret 1)
  | (s1, true) =>
    match runTasksLoop (List.range s1.tasks.length) s1 with
    | (s2, fatal) =>
      let s3 := lockRelease s2
      if fatal then (s3, RunnerResult.exited 1) else (s3, RunnerResult.ret 0)

/-! Task construction check and TaskRunner.create_tasks
(tasks.py lines 14-27 and 202-280). -/

/-- str(Path(p)) for a component list: components joined by a slash.
Path normalisation drops a trailing slash, so the argument runs/ and the
argument runs are both represented by the one-component list. -/
def strOfPath (p : List String) : String := String.intercalate "/" p

/-- str.startswith(pre) on the underlying character lists. -/
def strStartsWith (s pre : String) : Bool := pre.data.isPrefixOf s.data

/-- The Python substring test (sub in s). -/
def strContains (s sub : String) : Bool :=
  (List.range (s.data.length + 1)).any (fun k => sub.data.isPrefixOf (s.data.drop k))

/-- The name validation of Task.init (tasks.py line 24), with the Python
operator precedence: (Path(name).exists() and str(Path(name)).startswith
of runs/) or str(Path(name)) == runs. Existence is membership in the list
of directories present on disk. When this is false the constructor raises
ValueError and no Task object is created (line 27). -/
def taskInitOk (dirs : List (List String)) (name : List String) : Bool :=
  (decide (name ∈ dirs) && strStartsWith (strOfPath name) "runs/")
    || decide (strOfPath name = "runs")

/-- q is an immediate subdirectory path of p. -/
def isImmSubdir (p q : List String) : Bool :=
  p.isPrefixOf q && decide (q.length = p.length + 1)

/-- any(sub.is_dir() for sub in path.iterdir()): the directory has at
least one immediate subdirectory (tasks.py line 246). -/
def hasDirChild (dirs : List (List String)) (p : List String) : Bool :=
  dirs.any (fun q => isImmSubdir p q)

/-- A freshly constructed Task (tasks.py lines 14-39): no dependencies
yet, exit code and status None, not completed. -/
def mkTaskState (name : List String) (isP : Bool) (r : RunResult) : TaskState :=
  { name := name, isParent := isP, deps := [], runRes := r,
    copyRaises := false, status := none, completed := false }

/-- The unit built for one directory visited by the rglob walk (tasks.py
lines 243-262): a parent when the directory has a subdirectory, else a
leaf running the external command. -/
def walkedTask (work : List String → RunResult) (dirs : List (List String))
    (q : List String) : TaskState :=
  if hasDirChild dirs q then mkTaskState q true (RunResult.ret none)
  else mkTaskState q false (work q)

/-- Unit creation of TaskRunner.create_tasks (tasks.py lines 213-262):
always a main parent unit for runs/; then a unit for the target directory
itself - a leaf if its path contains the substring run_, else a parent;
then one unit per directory strictly below the target (rglob). dirs is
the list of directories present on disk in traversal order; work gives
the exit behaviour of the external command run by a leaf work function. -/
def createTasks (work : List String → RunResult) (tasksDir : List String)
    (dirs : List (List String)) : List TaskState :=
  mkTaskState ["runs"] true (RunResult.ret none)
    :: (if strContains (strOfPath tasksDir) "run_" then
          mkTaskState tasksDir false (work tasksDir)
        else mkTaskState tasksDir true (RunResult.ret none))
    :: (dirs.filter (fun q => tasksDir.isPrefixOf q && decide (q ≠ tasksDir))).map
        (walkedTask work dirs)

/-- Dependency wiring of TaskRunner.create_tasks (tasks.py lines 264-272):
every parent unit gets as dependencies all units of the list whose path is
an immediate subdirectory of its own path present on disk, in task-list
order. -/
def wireDeps (dirs : List (List String)) (ts : List TaskState) : List TaskState :=
  ts.map (fun t =>
    if t.isParent then
      { t with deps := (List.range ts.length).filter (fun j =>
          decide ((ts.getD j default).name ∈ dirs)
            && isImmSubdir t.name (ts.getD j default).name) }
    else t)

/-- The status refresh closing TaskRunner.create_tasks (tasks.py lines
273-275): check_status on every unit in task-list order. -/
def checkAll (fuel : Nat) (s : Sys) : Option Sys :=
  (List.range s.tasks.length).foldlM (fun s1 i => checkStatus fuel i s1) s

/-! Scenario 1 of the specification: a fresh sweep tree with two leaf
units run_1 and run_2 directly under the sweep root, both work functions
returning exit code 0, executed by TaskRunner('runs/').run(). -/

def scenario1Dirs : List (List String) :=
  [["runs"], ["runs", "run_1"], ["runs", "run_2"]]

def scenario1Tasks : List TaskState :=
  wireDeps scenario1Dirs
    (createTasks (fun _ => RunResult.ret (some 0)) ["runs"] scenario1Dirs)

/-- The state after TaskRunner construction: empty disk apart from the
directories, free lock, discovery followed by the initial status check. -/
def scenario1Start : Option Sys :=
  checkAll 4 { tasks := scenario1Tasks, files := [], lock := none, calls := [] }

/-- The state and result of TaskRunner.run() on the fresh tree. -/
def scenario1Run : Option (Sys × RunnerResult) :=
  scenario1Start.map (fun s => runnerRun "runs/" s)

/-! The same tree one level deeper: TaskRunner('runs/conf').run() on a
fresh tree whose two leaves sit in runs/conf. Used to show what the run
loop does to the parent unit runs/conf itself. -/

def scenario1NestedDirs : List (List String) :=
  [["runs"], ["runs", "conf"], ["runs", "conf", "run_1"], ["runs", "conf", "run_2"]]

def scenario1NestedTasks : List TaskState :=
  wireDeps scenario1NestedDirs
    (createTasks (fun _ => RunResult.ret (some 0)) ["runs", "conf"] scenario1NestedDirs)

def scenario1NestedStart : Option Sys :=
  checkAll 5 { tasks := scenario1NestedTasks, files := [], lock := none, calls := [] }

def scenario1NestedRun : Option (Sys × RunnerResult) :=
  scenario1NestedStart.map (fun s => runnerRun "runs/conf" s)

/-! Concrete states used by individual claims. -/

/-- A parent over one successful leaf, with a FAILED marker already lying
in the parent directory (left there, for instance, by an earlier partial
run after which the leaf markers were reset externally). -/
def c2State : Sys :=
  { tasks :=
      [{ name := ["runs"], isParent := true, deps := [1],
         runRes := RunResult.ret none, copyRaises := false,
         status := none, completed := false },
       mkTaskState ["runs", "run_1"] false (RunResult.ret (some 0))],
    files := [(["runs"], "FAILED"), (["runs", "run_1"], "SUCCESS")],
    lock := none, calls := [] }

/-- A parent over a failed leaf (visited first) and a pending leaf
(visited second). -/
def c10State : Sys :=
  { tasks :=
      [{ name := ["runs"], isParent := true, deps := [1, 2],
         runRes := RunResult.ret none, copyRaises := false,
         status := none, completed := false },
       mkTaskState ["runs", "run_1"] false (RunResult.ret (some 0)),
       mkTaskState ["runs", "run_2"] false (RunResult.ret (some 0))],
    files := [(["runs", "run_1"], "FAILED")],
    lock := none, calls := [] }

/-- A leaf whose directory holds both the SUCCESS and the FAILED marker. -/
def c4State : Sys :=
  { tasks := [mkTaskState ["runs", "run_1"] false (RunResult.ret (some 0))],
    files := [(["runs", "run_1"], "SUCCESS"), (["runs", "run_1"], "FAILED")],
    lock := none, calls := [] }

/-- A leaf completed with status SUCCESS (its marker already on disk). -/
def c3State : Sys :=
  { tasks :=
      [{ name := ["runs", "run_1"], isParent := false, deps := [],
         runRes := RunResult.ret (some 0), copyRaises := false,
         status := some "SUCCESS", completed := true }],
    files := [(["runs", "run_1"], "SUCCESS")], lock := none, calls := [] }

/-- A not-yet-run leaf whose config copy raises an I/O error
(copyfile fails; tasks.py lines 70-74 catch and log it). -/
def c5CopyErrState : Sys :=
  { tasks :=
      [{ name := ["runs", "conf", "run_1"], isParent := false, deps := [],
         runRes := RunResult.ret (some 0), copyRaises := true,
         status := none, completed := false }],
    files := [], lock := none, calls := [] }

/-- A not-yet-run leaf whose work function raises an uncaught exception. -/
def c5RaiseState : Sys :=
  { tasks :=
      [{ name := ["runs", "conf", "run_2"], isParent := false, deps := [],
         runRes := RunResult.raise, copyRaises := false,
         status := none, completed := false }],
    files := [], lock := none, calls := [] }

/-- A state in which another invocation holds the Execution Lock and a
SUCCESS marker already exists on disk. -/
def c7LockedState : Sys :=
  { tasks := [mkTaskState ["runs", "run_1"] false (RunResult.ret (some 0))],
    files := [(["runs", "run_1"], "SUCCESS")],
    lock := some "other-run", calls := [] }
/-- A parent over one successful leaf with a clean parent directory. -/
def c2WitnessState : Sys :=
  { tasks :=
      [{ name := ["runs"], isParent := true, deps := [1],
         runRes := RunResult.ret none, copyRaises := false,
         status := none, completed := false },
       mkTaskState ["runs", "run_1"] false (RunResult.ret (some 0))],
    files := [(["runs", "run_1"], "SUCCESS")], lock := none, calls := [] }

/-- A two-level tree: the root parent depends on an intermediate parent
whose single leaf carries a SUCCESS marker; both parent directories are
clean. -/
def c2NestedState : Sys :=
  { tasks :=
      [{ name := ["runs"], isParent := true, deps := [1],
         runRes := RunResult.ret none, copyRaises := false,
         status := none, completed := false },
       { name := ["runs", "conf"], isParent := true, deps := [2],
         runRes := RunResult.ret none, copyRaises := false,
         status := none, completed := false },
       mkTaskState ["runs", "conf", "run_1"] false (RunResult.ret (some 0))],
    files := [(["runs", "conf", "run_1"], "SUCCESS")], lock := none, calls := [] }

/-- A state with no tasks, no files and a free lock. -/
def emptySys : Sys :=
  { tasks := [], files := [], lock := none, calls := [] }

/-! Characterization of check_status over whole dependency trees. The
following definitions describe, as pure functions of the on-disk markers
and the task shapes, the completion and success values that the recursive
Task.check_status computes; the theorem checkStatus_spec proves that the
source function realises them on every well-formed tree. -/

/-- Equality of the immutable shape of the task list between two states:
same length, and every task object keeps its name, its kind and its
dependency list (check_status and run only ever write status and
completed). -/
def sameShape (s s2 : Sys) : Prop :=
  s2.tasks.length = s.tasks.length ∧
  ∀ j, (getTask s2 j).name = (getTask s j).name ∧
    (getTask s2 j).isParent = (getTask s j).isParent ∧
    (getTask s2 j).deps = (getTask s j).deps

/-- The directory names of all units in the dependency subtree of unit i:
the unit itself first, then the subtrees of its dependencies in order.
The fuel argument bounds the depth exactly as in checkStatus. -/
def subtreeNames : Nat → Sys → Nat → List (List String)
  | 0, _, _ => []
  | fuel + 1, s, i =>
    (getTask s i).name ::
      (if (getTask s i).isParent then
        ((getTask s i).deps.map (fun d => subtreeNames fuel s d)).flatten
      else [])

/-- Well-formedness of the dependency subtree of unit i: the index is in
range and every dependency of a parent is well-formed one level deeper,
so the recursion of check_status terminates within the given fuel. -/
def treeOK : Nat → Sys → Nat → Bool
  | 0, _, _ => false
  | fuel + 1, s, i =>
    decide (i < s.tasks.length) &&
      (if (getTask s i).isParent then
        (getTask s i).deps.all (fun d => treeOK fuel s d)
      else true)

/-- The completion value check_status computes for unit i from the disk:
a leaf is completed when one of its two markers exists; a parent is
completed when all of its dependencies are. -/
def evalCompleted : Nat → Sys → Nat → Bool
  | 0, _, _ => false
  | fuel + 1, s, i =>
    if (getTask s i).isParent then
      (getTask s i).deps.all (fun d => evalCompleted fuel s d)
    else
      fileExists s.files (getTask s i).name "SUCCESS" ||
        fileExists s.files (getTask s i).name "FAILED"

/-- The success value check_status computes for a completed unit i: a
leaf is successful when its SUCCESS marker exists (checked first); a
parent is successful when all of its dependencies are successful and no
FAILED marker lies in its own directory beforehand. -/
def evalSuccess : Nat → Sys → Nat → Bool
  | 0, _, _ => false
  | fuel + 1, s, i =>
    if (getTask s i).isParent then
      (getTask s i).deps.all (fun d => evalSuccess fuel s d) &&
        !fileExists s.files (getTask s i).name "FAILED"
    else
      fileExists s.files (getTask s i).name "SUCCESS"

/-! Basic lemmas about the state primitives. -/

theorem getD_set_eq {α : Type} :
    ∀ (l : List α) (i : Nat) (a d : α), i < l.length → (l.set i a).getD i d = a
  | [], i, _, _, h => absurd h (by simp)
  | _ :: _, 0, _, _, _ => rfl
  | _ :: xs, i + 1, a, d, h => getD_set_eq xs i a d (Nat.lt_of_succ_lt_succ h)

theorem getD_set_ne {α : Type} :
    ∀ (l : List α) (i j : Nat) (a d : α), j ≠ i → (l.set i a).getD j d = l.getD j d
  | [], _, _, _, _, _ => rfl
  | _ :: _, 0, 0, _, _, h => absurd rfl h
  | _ :: _, 0, _ + 1, _, _, _ => rfl
  | _ :: _, _ + 1, 0, _, _, _ => rfl
  | _ :: xs, i + 1, j + 1, a, d, h =>
      getD_set_ne xs i j a d (fun e => h (by rw [e]))

theorem getTask_setTask_same (s : Sys) (i : Nat) (f : TaskState → TaskState)
    (hi : i < s.tasks.length) : getTask (setTask s i f) i = f (getTask s i) := by
  unfold getTask setTask
  exact getD_set_eq _ _ _ _ hi

theorem getTask_setTask_other (s : Sys) (i j : Nat) (f : TaskState → TaskState)
    (hij : j ≠ i) : getTask (setTask s i f) j = getTask s j := by
  unfold getTask setTask
  exact getD_set_ne _ _ _ _ _ hij

theorem setTask_files (s : Sys) (i : Nat) (f : TaskState → TaskState) :
    (setTask s i f).files = s.files := rfl

theorem setTask_lock (s : Sys) (i : Nat) (f : TaskState → TaskState) :
    (setTask s i f).lock = s.lock := rfl

theorem setTask_calls (s : Sys) (i : Nat) (f : TaskState → TaskState) :
    (setTask s i f).calls = s.calls := rfl

theorem setTask_length (s : Sys) (i : Nat) (f : TaskState → TaskState) :
    (setTask s i f).tasks.length = s.tasks.length := by
  unfold setTask
  exact List.length_set _ _ _

theorem fileExists_touchFile_self (fs : List FileEntry) (p : List String) (f : String) :
    fileExists (touchFile fs p f) p f = true := by
  unfold touchFile fileExists
  split
  · next h => exact decide_eq_true h
  · exact decide_eq_true (List.mem_cons_self _ _)

theorem fileExists_touchFile_ne (fs : List FileEntry) (p : List String) (f : String)
    (q : List String) (g : String) (h : ¬(q = p ∧ g = f)) :
    fileExists (touchFile fs p f) q g = fileExists fs q g := by
  unfold touchFile fileExists
  split
  · rfl
  · have hne : ¬((q, g) = (p, f)) := by
      intro e
      exact h ⟨congrArg Prod.fst e, congrArg Prod.snd e⟩
    simp [List.mem_cons, hne]


theorem boolEqFalse {b : Bool} (h : ¬(b = true)) : b = false := by
  cases b
  · rfl
  · exact absurd rfl h

theorem boolOrElim {a b : Bool} (h : (a || b) = true) : a = true ∨ b = true := by
  cases a
  · cases b
    · exact absurd h (by decide)
    · exact Or.inr rfl
  · exact Or.inl rfl

theorem boolAndElim {a b : Bool} (h : (a && b) = true) : a = true ∧ b = true := by
  cases a
  · cases b
    · exact absurd h (by decide)
    · exact absurd h (by decide)
  · cases b
    · exact absurd h (by decide)
    · exact ⟨rfl, rfl⟩

theorem count_le_one_of_nodup {α : Type} [BEq α] [LawfulBEq α] {l : List α}
    (h : l.Nodup) (a : α) : l.count a ≤ 1 := by
  induction l with
  | nil => simp
  | cons b t ih =>
    rw [List.count_cons]
    have hnd := List.nodup_cons.mp h
    by_cases hab : a = b
    · subst hab
      have hz : t.count a = 0 := by
        rw [List.count_eq_zero]
        exact hnd.1
      rw [hz]
      simp
    · have hf : (b == a) = false := by
        rw [beq_eq_false_iff_ne]
        exact fun e => hab e.symm
      rw [hf]
      simpa using ih hnd.2

theorem count_eq_one_of_mem_nodup {α : Type} [BEq α] [LawfulBEq α] {l : List α}
    (h : l.Nodup) {a : α} (ha : a ∈ l) : l.count a = 1 := by
  induction l with
  | nil => cases ha
  | cons b tl ih =>
    rw [List.count_cons]
    have hnd := List.nodup_cons.mp h
    rcases List.mem_cons.mp ha with he | hm
    · subst he
      have hz : tl.count a = 0 := by
        rw [List.count_eq_zero]
        exact hnd.1
      rw [hz]
      simp
    · have hne : (b == a) = false := by
        rw [beq_eq_false_iff_ne]
        intro e
        rw [e] at hnd
        exact hnd.1 hm
      rw [hne]
      simpa using ih hnd.2 hm

theorem list_any_congr {α : Type} {l : List α} {p q : α → Bool}
    (h : ∀ a ∈ l, p a = q a) : l.any p = l.any q := by
  induction l with
  | nil => rfl
  | cons a t ih =>
    simp only [List.any_cons]
    rw [h a (List.mem_cons_self a t), ih (fun b hb => h b (List.mem_cons_of_mem a hb))]

theorem getTask_updateFiles (s : Sys) (fs : List FileEntry) (i : Nat) :
    getTask { s with files := fs } i = getTask s i := rfl

/-! Lemmas about the leaf branch of Task.check_status. -/

theorem checkStatus_leaf (fuel i : Nat) (s : Sys) (h : (getTask s i).isParent = false) :
    checkStatus (fuel + 1) i s = some (leafCheck s i) := by
  simp [checkStatus, h]

theorem leafCheck_files (s : Sys) (d : Nat) : (leafCheck s d).files = s.files := by
  unfold leafCheck
  split
  · exact setTask_files _ _ _
  · split
    · exact setTask_files _ _ _
    · exact setTask_files _ _ _

theorem leafCheck_length (s : Sys) (d : Nat) :
    (leafCheck s d).tasks.length = s.tasks.length := by
  unfold leafCheck
  split
  · exact setTask_length _ _ _
  · split
    · exact setTask_length _ _ _
    · exact setTask_length _ _ _

theorem getTask_leafCheck_other (s : Sys) (d j : Nat) (hjd : j ≠ d) :
    getTask (leafCheck s d) j = getTask s j := by
  unfold leafCheck
  split
  · exact getTask_setTask_other _ _ _ _ hjd
  · split
    · exact getTask_setTask_other _ _ _ _ hjd
    · exact getTask_setTask_other _ _ _ _ hjd

theorem getTask_leafCheck_fields (s : Sys) (d : Nat) (hd : d < s.tasks.length) :
    (getTask (leafCheck s d) d).name = (getTask s d).name ∧
    (getTask (leafCheck s d) d).isParent = (getTask s d).isParent ∧
    (getTask (leafCheck s d) d).deps = (getTask s d).deps := by
  unfold leafCheck
  split
  · rw [getTask_setTask_same _ _ _ hd]; exact ⟨rfl, rfl, rfl⟩
  · split
    · rw [getTask_setTask_same _ _ _ hd]; exact ⟨rfl, rfl, rfl⟩
    · rw [getTask_setTask_same _ _ _ hd]; exact ⟨rfl, rfl, rfl⟩

theorem getTask_leafCheck_shape (s : Sys) (d : Nat) (hd : d < s.tasks.length) (j : Nat) :
    (getTask (leafCheck s d) j).name = (getTask s j).name ∧
    (getTask (leafCheck s d) j).isParent = (getTask s j).isParent := by
  by_cases hjd : j = d
  · subst hjd
    exact ⟨(getTask_leafCheck_fields s j hd).1, (getTask_leafCheck_fields s j hd).2.1⟩
  · rw [getTask_leafCheck_other s d j hjd]
    exact ⟨rfl, rfl⟩

theorem getTask_leafCheck_success (s : Sys) (d : Nat) (hd : d < s.tasks.length)
    (hS : fileExists s.files (getTask s d).name "SUCCESS" = true) :
    (getTask (leafCheck s d) d).status = some "SUCCESS" ∧
    (getTask (leafCheck s d) d).completed = true := by
  unfold leafCheck
  rw [hS]
  rw [if_pos rfl, getTask_setTask_same _ _ _ hd]
  exact ⟨rfl, rfl⟩

theorem getTask_leafCheck_failed (s : Sys) (d : Nat) (hd : d < s.tasks.length)
    (hS : fileExists s.files (getTask s d).name "SUCCESS" = false)
    (hF : fileExists s.files (getTask s d).name "FAILED" = true) :
    (getTask (leafCheck s d) d).status = some "FAILED" ∧
    (getTask (leafCheck s d) d).completed = true := by
  unfold leafCheck
  rw [hS, hF]
  rw [if_neg (by simp), if_pos rfl, getTask_setTask_same _ _ _ hd]
  exact ⟨rfl, rfl⟩

theorem getTask_leafCheck_pending (s : Sys) (d : Nat) (hd : d < s.tasks.length)
    (hS : fileExists s.files (getTask s d).name "SUCCESS" = false)
    (hF : fileExists s.files (getTask s d).name "FAILED" = false) :
    (getTask (leafCheck s d) d).status = (getTask s d).status ∧
    (getTask (leafCheck s d) d).completed = false := by
  unfold leafCheck
  rw [hS, hF]
  rw [if_neg (by simp), if_neg (by simp), getTask_setTask_same _ _ _ hd]
  exact ⟨rfl, rfl⟩

/-! Lemmas about Task.copy_config. -/

theorem copyConfig_tasks (s : Sys) (i : Nat) : (copyConfig s i).tasks = s.tasks := by
  unfold copyConfig
  split
  · rfl
  · split
    · rfl
    · rfl

theorem copyConfig_calls (s : Sys) (i : Nat) : (copyConfig s i).calls = s.calls := by
  unfold copyConfig
  split
  · rfl
  · split
    · rfl
    · rfl

theorem copyConfig_marker (s : Sys) (i : Nat) (q : List String) (g : String)
    (hg : g ≠ "used_cfg.yaml") :
    fileExists (copyConfig s i).files q g = fileExists s.files q g := by
  unfold copyConfig
  split
  · rfl
  · split
    · rfl
    · exact fileExists_touchFile_ne _ _ _ _ _ (fun hc => hg hc.2)

/-! Lemmas about the parent branch of Task.check_status. -/

theorem checkStatus_parent (fuel i : Nat) (s : Sys) (hp : (getTask s i).isParent = true) :
    checkStatus (fuel + 1) i s =
      match checkDepsLoopWith (checkStatus fuel) i (getTask s i).deps s with
      | none => none
      | some (s1, true) => some s1
      | some (s1, false) => some (finalizeParent s1 i) := by
  simp [checkStatus, hp]

theorem checkDepsLoopWith_cons_step (check : Nat → Sys → Option Sys) (par d : Nat)
    (rest : List Nat) (s s1 : Sys) (hcheck : check d s = some s1) :
    checkDepsLoopWith check par (d :: rest) s =
      (if (getTask s1 d).completed = false then
        some (setTask s1 par (fun u => { u with completed := false }), true)
      else
        checkDepsLoopWith check par rest
          (if (getTask s1 d).status ≠ some "SUCCESS" then
            { s1 with files := touchFile s1.files (getTask s1 par).name "FAILED" }
          else s1)) := by
  simp only [checkDepsLoopWith, hcheck]

theorem markParentCompleted_files (s1 : Sys) (i : Nat) :
    (markParentCompleted s1 i).files = s1.files := rfl

theorem markParentCompleted_length (s1 : Sys) (i : Nat) :
    (markParentCompleted s1 i).tasks.length = s1.tasks.length := by
  unfold markParentCompleted
  exact setTask_length _ _ _

theorem getTask_markParentCompleted (s1 : Sys) (i : Nat) (hi : i < s1.tasks.length) :
    getTask (markParentCompleted s1 i) i = { getTask s1 i with completed := true } := by
  unfold markParentCompleted
  rw [getTask_setTask_same _ _ _ hi]

theorem getTask_finalizeParent (s1 : Sys) (i : Nat) (hi : i < s1.tasks.length) :
    getTask (finalizeParent s1 i) i =
      { getTask s1 i with
        completed := true,
        status :=
          if fileExists s1.files (getTask s1 i).name "FAILED" then some "FAILED"
          else some "SUCCESS" } := by
  have hlen : i < (markParentCompleted s1 i).tasks.length := by
    rw [markParentCompleted_length]; exact hi
  have hname : (getTask (markParentCompleted s1 i) i).name = (getTask s1 i).name := by
    rw [getTask_markParentCompleted s1 i hi]
  unfold finalizeParent
  rw [markParentCompleted_files, hname]
  by_cases hF : fileExists s1.files (getTask s1 i).name "FAILED" = true
  · rw [if_pos hF, if_pos hF, getTask_setTask_same _ _ _ hlen,
      getTask_markParentCompleted s1 i hi]
  · have hlen2 : i < ({ markParentCompleted s1 i with
        files := touchFile s1.files (getTask s1 i).name "SUCCESS" }).tasks.length := hlen
    rw [if_neg hF, if_neg hF, getTask_setTask_same _ _ _ hlen2, getTask_updateFiles,
      getTask_markParentCompleted s1 i hi]

/-! One iteration of the dependency loop on a completed leaf dependency:
the loop continues on a state that differs from the entry state only in
the leaf task entry and, when the leaf was not successful, in a FAILED
marker touched in the parent directory. -/

theorem checkDepsLoop_step (check : Nat → Sys → Option Sys)
    (hcheck : ∀ (x : Nat) (sx : Sys), (getTask sx x).isParent = false →
      check x sx = some (leafCheck sx x))
    (par d : Nat) (rest : List Nat) (s : Sys)
    (hdlt : d < s.tasks.length)
    (hdlf : (getTask s d).isParent = false)
    (hdpar : d ≠ par)
    (hdmk : fileExists s.files (getTask s d).name "SUCCESS" = true ∨
      fileExists s.files (getTask s d).name "FAILED" = true) :
    ∃ s1, checkDepsLoopWith check par (d :: rest) s =
        checkDepsLoopWith check par rest s1 ∧
      s1.tasks.length = s.tasks.length ∧
      (∀ j, (getTask s1 j).name = (getTask s j).name ∧
        (getTask s1 j).isParent = (getTask s j).isParent) ∧
      getTask s1 par = getTask s par ∧
      (∀ q g, ¬(q = (getTask s par).name ∧ g = "FAILED") →
        fileExists s1.files q g = fileExists s.files q g) ∧
      fileExists s1.files (getTask s par).name "FAILED" =
        (fileExists s.files (getTask s par).name "FAILED" ||
         !fileExists s.files (getTask s d).name "SUCCESS") := by
  have hparent1 : getTask (leafCheck s d) par = getTask s par :=
    getTask_leafCheck_other s d par (Ne.symm hdpar)
  have hfiles1 : (leafCheck s d).files = s.files := leafCheck_files s d
  have hstep := checkDepsLoopWith_cons_step check par d rest s
    (leafCheck s d) (hcheck d s hdlf)
  by_cases hS : fileExists s.files (getTask s d).name "SUCCESS" = true
  · have hfields := getTask_leafCheck_success s d hdlt hS
    have hnotc : ¬((getTask (leafCheck s d) d).completed = false) := by
      rw [hfields.2]; exact fun e => Bool.noConfusion e
    have hnots : ¬((getTask (leafCheck s d) d).status ≠ some "SUCCESS") := by
      rw [hfields.1]; exact fun e => e rfl
    rw [hstep, if_neg hnotc, if_neg hnots]
    refine ⟨leafCheck s d, rfl, leafCheck_length s d,
      (fun j => getTask_leafCheck_shape s d hdlt j), hparent1,
      (fun q g _ => by rw [hfiles1]), ?_⟩
    rw [hfiles1, hS]
    simp
  · have hSf : fileExists s.files (getTask s d).name "SUCCESS" = false := boolEqFalse hS
    have hF : fileExists s.files (getTask s d).name "FAILED" = true := by
      rcases hdmk with h | h
      · exact absurd h hS
      · exact h
    have hfields := getTask_leafCheck_failed s d hdlt hSf hF
    have hnotc : ¬((getTask (leafCheck s d) d).completed = false) := by
      rw [hfields.2]; exact fun e => Bool.noConfusion e
    have hyess : (getTask (leafCheck s d) d).status ≠ some "SUCCESS" := by
      rw [hfields.1]; decide
    rw [hstep, if_neg hnotc, if_pos hyess, hparent1, hfiles1]
    refine ⟨{ leafCheck s d with
        files := touchFile s.files (getTask s par).name "FAILED" }, rfl, ?_, ?_, ?_, ?_, ?_⟩
    · exact leafCheck_length s d
    · intro j
      rw [getTask_updateFiles]
      exact getTask_leafCheck_shape s d hdlt j
    · rw [getTask_updateFiles]
      exact hparent1
    · intro q g hq
      exact fileExists_touchFile_ne _ _ _ _ _ hq
    · rw [fileExists_touchFile_self, hSf]
      simp

/-- When every dependency in the list is a completed leaf, the loop runs
to the end without an early return; the parent entry is untouched, files
other than the FAILED marker of the parent directory are untouched, and
that marker ends up present exactly when it was already present or some
dependency lacks a SUCCESS marker. -/
theorem checkDepsLoop_all_completed (check : Nat → Sys → Option Sys)
    (hcheck : ∀ (x : Nat) (sx : Sys), (getTask sx x).isParent = false →
      check x sx = some (leafCheck sx x))
    (par : Nat) (deps : List Nat) :
    ∀ (s : Sys),
      par < s.tasks.length →
      (getTask s par).isParent = true →
      (∀ d ∈ deps,
        d < s.tasks.length ∧ (getTask s d).isParent = false ∧
        (getTask s d).name ≠ (getTask s par).name ∧
        (fileExists s.files (getTask s d).name "SUCCESS" = true ∨
         fileExists s.files (getTask s d).name "FAILED" = true)) →
      ∃ s2, checkDepsLoopWith check par deps s = some (s2, false) ∧
        s2.tasks.length = s.tasks.length ∧
        getTask s2 par = getTask s par ∧
        (∀ q g, ¬(q = (getTask s par).name ∧ g = "FAILED") →
          fileExists s2.files q g = fileExists s.files q g) ∧
        fileExists s2.files (getTask s par).name "FAILED" =
          (fileExists s.files (getTask s par).name "FAILED" ||
           deps.any (fun x => !fileExists s.files (getTask s x).name "SUCCESS")) := by
  induction deps with
  | nil =>
    intro s _ _ _
    exact ⟨s, rfl, rfl, rfl, fun _ _ _ => rfl, by simp⟩
  | cons d rest ih =>
    intro s hpar hp hd
    obtain ⟨hdlt, hdlf, hdnm, hdmk⟩ := hd d (List.mem_cons_self d rest)
    have hdpar : d ≠ par := by
      intro e
      rw [e, hp] at hdlf
      exact Bool.noConfusion hdlf
    obtain ⟨s1, hstep, hlen1, hshape1, hparent1, hfl1, hfail1⟩ :=
      checkDepsLoop_step check hcheck par d rest s hdlt hdlf hdpar hdmk
    obtain ⟨s2, hloop, hlen2, hparent2, hfl2, hfail2⟩ := ih s1
      (by rw [hlen1]; exact hpar)
      (by rw [hparent1]; exact hp)
      (by
        intro a ha
        obtain ⟨h1, h2, h3, h4⟩ := hd a (List.mem_cons_of_mem d ha)
        have hsh := hshape1 a
        refine ⟨by rw [hlen1]; exact h1, by rw [hsh.2]; exact h2,
          by rw [hsh.1, hparent1]; exact h3, ?_⟩
        rw [hsh.1, hfl1 (getTask s a).name "SUCCESS" (fun hc => h3 hc.1),
          hfl1 (getTask s a).name "FAILED" (fun hc => h3 hc.1)]
        exact h4)
    refine ⟨s2, by rw [hstep]; exact hloop, by rw [hlen2, hlen1],
      by rw [hparent2, hparent1], ?_, ?_⟩
    · intro q g hq
      have hq1 : ¬(q = (getTask s1 par).name ∧ g = "FAILED") := by
        rw [hparent1]; exact hq
      rw [hfl2 q g hq1, hfl1 q g hq]
    · have hany : rest.any (fun x => !fileExists s1.files (getTask s1 x).name "SUCCESS")
          = rest.any (fun x => !fileExists s.files (getTask s x).name "SUCCESS") := by
        apply list_any_congr
        intro a ha
        obtain ⟨h1, h2, h3, h4⟩ := hd a (List.mem_cons_of_mem d ha)
        rw [(hshape1 a).1, hfl1 (getTask s a).name "SUCCESS" (fun hc => h3 hc.1)]
      have hpn2 : (getTask s1 par).name = (getTask s par).name := by rw [hparent1]
      rw [hpn2] at hfail2
      rw [hfail2, hany, hfail1, List.any_cons, Bool.or_assoc]

/-- When some dependency in the list is a pending leaf (no marker at all),
the loop returns early with the parent set incomplete and its status left
as it was. -/
theorem checkDepsLoop_incomplete (check : Nat → Sys → Option Sys)
    (hcheck : ∀ (x : Nat) (sx : Sys), (getTask sx x).isParent = false →
      check x sx = some (leafCheck sx x))
    (par : Nat) (deps : List Nat) :
    ∀ (s : Sys),
      par < s.tasks.length →
      (getTask s par).isParent = true →
      (∀ d ∈ deps,
        d < s.tasks.length ∧ (getTask s d).isParent = false ∧
        (getTask s d).name ≠ (getTask s par).name) →
      (∃ d ∈ deps,
        fileExists s.files (getTask s d).name "SUCCESS" = false ∧
        fileExists s.files (getTask s d).name "FAILED" = false) →
      ∃ s2, checkDepsLoopWith check par deps s = some (s2, true) ∧
        getTask s2 par = { getTask s par with completed := false } ∧
        (fileExists s.files (getTask s par).name "FAILED" = true →
          fileExists s2.files (getTask s par).name "FAILED" = true) := by
  induction deps with
  | nil =>
    intro s _ _ _ hex
    rcases hex with ⟨d, hd, _⟩
    exact absurd hd (List.not_mem_nil d)
  | cons d rest ih =>
    intro s hpar hp hd hex
    obtain ⟨hdlt, hdlf, hdnm⟩ := hd d (List.mem_cons_self d rest)
    have hdpar : d ≠ par := by
      intro e
      rw [e, hp] at hdlf
      exact Bool.noConfusion hdlf
    by_cases hdc : fileExists s.files (getTask s d).name "SUCCESS" = false ∧
        fileExists s.files (getTask s d).name "FAILED" = false
    · have hstep := checkDepsLoopWith_cons_step check par d rest s
        (leafCheck s d) (hcheck d s hdlf)
      have hfields := getTask_leafCheck_pending s d hdlt hdc.1 hdc.2
      rw [hstep, if_pos hfields.2]
      have hpar1 : par < (leafCheck s d).tasks.length := by
        rw [leafCheck_length]; exact hpar
      refine ⟨_, rfl, ?_, ?_⟩
      · rw [getTask_setTask_same _ _ _ hpar1,
          getTask_leafCheck_other s d par (Ne.symm hdpar)]
      · intro hm
        rw [setTask_files, leafCheck_files]
        exact hm
    · have hdmk : fileExists s.files (getTask s d).name "SUCCESS" = true ∨
          fileExists s.files (getTask s d).name "FAILED" = true := by
        by_cases hS : fileExists s.files (getTask s d).name "SUCCESS" = true
        · exact Or.inl hS
        · by_cases hF : fileExists s.files (getTask s d).name "FAILED" = true
          · exact Or.inr hF
          · exact absurd ⟨boolEqFalse hS, boolEqFalse hF⟩ hdc
      obtain ⟨s1, hstep, hlen1, hshape1, hparent1, hfl1, hfail1⟩ :=
        checkDepsLoop_step check hcheck par d rest s hdlt hdlf hdpar hdmk
      obtain ⟨d0, hd0, hd0S, hd0F⟩ := hex
      have hd0r : d0 ∈ rest := by
        rcases List.mem_cons.mp hd0 with he | hr
        · exfalso
          rw [he] at hd0S hd0F
          exact hdc ⟨hd0S, hd0F⟩
        · exact hr
      obtain ⟨h1, h2, h3⟩ := hd d0 (List.mem_cons_of_mem d hd0r)
      obtain ⟨s2, hloop, hparent2, hmono2⟩ := ih s1
        (by rw [hlen1]; exact hpar)
        (by rw [hparent1]; exact hp)
        (by
          intro a ha
          obtain ⟨g1, g2, g3⟩ := hd a (List.mem_cons_of_mem d ha)
          have hsh := hshape1 a
          exact ⟨by rw [hlen1]; exact g1, by rw [hsh.2]; exact g2,
            by rw [hsh.1, hparent1]; exact g3⟩)
        (by
          refine ⟨d0, hd0r, ?_, ?_⟩
          · rw [(hshape1 d0).1, hfl1 (getTask s d0).name "SUCCESS" (fun hc => h3 hc.1)]
            exact hd0S
          · rw [(hshape1 d0).1, hfl1 (getTask s d0).name "FAILED" (fun hc => h3 hc.1)]
            exact hd0F)
      refine ⟨s2, by rw [hstep]; exact hloop, ?_, ?_⟩
      · rw [hparent2, hparent1]
      · intro hm
        have hm1 : fileExists s1.files (getTask s1 par).name "FAILED" = true := by
          rw [hparent1, hfail1, hm]
          simp
        have := hmono2 hm1
        rw [hparent1] at this
        exact this

/-- Claim C10: during check_status on a parent, a completed dependency
with a non-SUCCESS status that is visited before a dependency without any
marker causes a FAILED marker to be created in the parent directory, even
though the call then returns with the parent not completed and its status
untouched: marker persistence for a parent is not atomic with finalising
the parent status (tasks.py lines 104-112). -/
theorem c10_premature_failed_marker (s : Sys) (i d1 d2 : Nat)
    (hi : i < s.tasks.length)
    (hp : (getTask s i).isParent = true)
    (hdeps : (getTask s i).deps = [d1, d2])
    (h1lt : d1 < s.tasks.length) (h1lf : (getTask s d1).isParent = false)
    (_h1nm : (getTask s d1).name ≠ (getTask s i).name)
    (h2lt : d2 < s.tasks.length) (h2lf : (getTask s d2).isParent = false)
    (h2nm : (getTask s d2).name ≠ (getTask s i).name)
    (h1S : fileExists s.files (getTask s d1).name "SUCCESS" = false)
    (h1F : fileExists s.files (getTask s d1).name "FAILED" = true)
    (h2S : fileExists s.files (getTask s d2).name "SUCCESS" = false)
    (h2F : fileExists s.files (getTask s d2).name "FAILED" = false) :
    ∃ s2, checkStatus 2 i s = some s2 ∧
      fileExists s2.files (getTask s i).name "FAILED" = true ∧
      (getTask s2 i).completed = false ∧
      (getTask s2 i).status = (getTask s i).status := by
  have hcheck1 : ∀ (x : Nat) (sx : Sys), (getTask sx x).isParent = false →
      checkStatus 1 x sx = some (leafCheck sx x) :=
    fun x sx h => checkStatus_leaf 0 x sx h
  have e2 : (2 : Nat) = 1 + 1 := rfl
  rw [e2, checkStatus_parent 1 i s hp, hdeps]
  have hd1par : d1 ≠ i := by
    intro e
    rw [e, hp] at h1lf
    exact Bool.noConfusion h1lf
  obtain ⟨s1, hstep, hlen1, hshape1, hparent1, hfl1, hfail1⟩ :=
    checkDepsLoop_step (checkStatus 1) hcheck1 i d1 [d2] s h1lt h1lf hd1par (Or.inr h1F)
  rw [hstep]
  have h2lf1 : (getTask s1 d2).isParent = false := by
    rw [(hshape1 d2).2]
    exact h2lf
  have h2nm1 : (getTask s1 d2).name ≠ (getTask s1 i).name := by
    rw [(hshape1 d2).1, hparent1]
    exact h2nm
  have h2S1 : fileExists s1.files (getTask s1 d2).name "SUCCESS" = false := by
    rw [(hshape1 d2).1, hfl1 (getTask s d2).name "SUCCESS" (fun hc => h2nm hc.1)]
    exact h2S
  have h2F1 : fileExists s1.files (getTask s1 d2).name "FAILED" = false := by
    rw [(hshape1 d2).1, hfl1 (getTask s d2).name "FAILED" (fun hc => h2nm hc.1)]
    exact h2F
  have hi1 : i < s1.tasks.length := by rw [hlen1]; exact hi
  obtain ⟨s2, hloop, hparent2, hmono⟩ :=
    checkDepsLoop_incomplete (checkStatus 1) hcheck1 i [d2] s1 hi1
      (by rw [hparent1]; exact hp)
      (by
        intro a ha
        have hax : a = d2 := by
          rcases List.mem_cons.mp ha with he | hr
          · exact he
          · exact absurd hr (List.not_mem_nil a)
        rw [hax]
        exact ⟨by rw [hlen1]; exact h2lt, h2lf1, h2nm1⟩)
      ⟨d2, List.mem_cons_self d2 [], h2S1, h2F1⟩
  rw [hloop]
  refine ⟨s2, rfl, ?_, ?_, ?_⟩
  · -- the FAILED marker touched while visiting d1 persists in s2
    have hf1 : fileExists s1.files (getTask s i).name "FAILED" = true := by
      rw [hfail1, h1S]
      simp
    rw [hparent1] at hmono
    exact hmono hf1
  · rw [hparent2, hparent1]
  · rw [hparent2, hparent1]

/-! Theorems settling the individual claims. -/

/-- Claim C1 (state of the code): on a fresh sweep tree with the two leaf
units runs/conf/run_1 and runs/conf/run_2 under the parent runs/conf, the
TaskRunner run loop executes both leaves, both work functions return 0 and
both leaves receive a SUCCESS marker - but the parent does NOT become
Success within the invocation: the run loop had already invoked run() on
the parent (as a dependency of the root) while its children were pending,
which marked the parent FAILED and put a FAILED marker in its directory;
the loop never re-evaluates a parent after its children complete. -/
theorem c1_parent_not_success :
    scenario1NestedRun.map (fun p =>
      (fileExists p.1.files ["runs", "conf", "run_1"] "SUCCESS",
       fileExists p.1.files ["runs", "conf", "run_2"] "SUCCESS",
       (getTask p.1 1).status,
       fileExists p.1.files ["runs", "conf"] "SUCCESS",
       fileExists p.1.files ["runs", "conf"] "FAILED",
       p.1.calls, p.2))
    = some (true, true, some "FAILED", false, true, [1, 2, 3], RunnerResult.ret 0) := by
  rfl

/-- Claim C3: running an already-completed unit is a no-op: the state
(markers, statuses, call trace) is returned unchanged and the call is not
fatal; in particular the work function is not invoked. -/
theorem c3_idempotent_resume (s : Sys) (i : Nat)
    (h : (getTask s i).completed = true) :
    taskRun s i = (s, false) := by
  unfold taskRun
  rw [if_pos h]

/-- Claim C3 witness at a completed leaf. -/
theorem c3_idempotent_resume_witness :
    (getTask c3State 0).completed = true ∧ taskRun c3State 0 = (c3State, false) :=
  ⟨by decide, c3_idempotent_resume c3State 0 (by decide)⟩

/-- Claim C4 (amended): when both the SUCCESS and the FAILED marker exist
in the directory of a leaf unit, check_status silently reports the unit as
completed with status SUCCESS - the SUCCESS marker is checked first and
wins; no error is surfaced. -/
theorem c4_both_markers_success (s : Sys) (i fuel : Nat)
    (hi : i < s.tasks.length)
    (hleaf : (getTask s i).isParent = false)
    (hS : fileExists s.files (getTask s i).name "SUCCESS" = true)
    (_hF : fileExists s.files (getTask s i).name "FAILED" = true) :
    ∃ s2, checkStatus (fuel + 1) i s = some s2 ∧
      (getTask s2 i).status = some "SUCCESS" ∧ (getTask s2 i).completed = true :=
  ⟨leafCheck s i, checkStatus_leaf fuel i s hleaf,
    (getTask_leafCheck_success s i hi hS).1, (getTask_leafCheck_success s i hi hS).2⟩

/-- Claim C4 witness at a leaf carrying both markers. -/
theorem c4_both_markers_success_witness :
    ∃ s2, checkStatus 1 0 c4State = some s2 ∧
      (getTask s2 0).status = some "SUCCESS" ∧ (getTask s2 0).completed = true :=
  c4_both_markers_success c4State 0 0 (by decide) (by decide) (by decide) (by decide)

/-- Claim C4 counterexample: both markers present, yet the unit resolves
to SUCCESS, not FAILED. -/
theorem c4_counterexample :
    (checkStatus 1 0 c4State).map (fun s2 => (getTask s2 0).status)
      = some (some "SUCCESS") ∧
    fileExists c4State.files ["runs", "run_1"] "SUCCESS" = true ∧
    fileExists c4State.files ["runs", "run_1"] "FAILED" = true := by
  decide

/-- Claim C5 (amended): an exception raised by the work function is fatal
(the process terminates via exit(1)) and no marker is written for the
unit; but an I/O error raised while copying the inherited configuration is
caught and logged by copy_config, the run proceeds, the work function is
still invoked, and the call is not fatal. -/
theorem c5_exception_handling (s : Sys) (i : Nat)
    (h : (getTask s i).completed = false) :
    ((getTask s i).runRes = RunResult.raise →
      (taskRun s i).2 = true ∧
      fileExists (taskRun s i).1.files (getTask s i).name "SUCCESS"
        = fileExists s.files (getTask s i).name "SUCCESS" ∧
      fileExists (taskRun s i).1.files (getTask s i).name "FAILED"
        = fileExists s.files (getTask s i).name "FAILED") ∧
    ((getTask s i).copyRaises = true → (getTask s i).isParent = false →
      (getTask s i).runRes = RunResult.ret (some 0) →
      (taskRun s i).2 = false ∧ (taskRun s i).1.calls = s.calls ++ [i]) := by
  have hnc : ¬((getTask s i).completed = true) := by
    rw [h]
    decide
  constructor
  · intro hr
    have heval : taskRun s i = (afterPreRun s i, true) := by
      unfold taskRun
      rw [if_neg hnc, hr]
    rw [heval]
    refine ⟨rfl, ?_, ?_⟩
    · show fileExists (copyConfig s i).files (getTask s i).name "SUCCESS" = _
      exact copyConfig_marker s i _ _ (by decide)
    · show fileExists (copyConfig s i).files (getTask s i).name "FAILED" = _
      exact copyConfig_marker s i _ _ (by decide)
  · intro hcr hplf hr
    have heval : taskRun s i = markCompleted (afterPreRun s i) i (some 0) := by
      unfold taskRun
      rw [if_neg hnc, hr]
      dsimp only
      rw [hplf]
      rw [if_neg (by decide : ¬(false = true))]
    rw [heval]
    have hrc : ¬(some (0 : Int) ≠ some 0) := fun hne => hne rfl
    unfold markCompleted
    rw [if_neg hrc]
    refine ⟨rfl, ?_⟩
    show (afterPreRun s i).calls = s.calls ++ [i]
    show (copyConfig s i).calls ++ [i] = s.calls ++ [i]
    rw [copyConfig_calls]

/-- Claim C5 witness: a raising work function is fatal and writes no
marker; a raising config copy is survived and the work function runs. -/
theorem c5_exception_handling_witness :
    ((taskRun c5RaiseState 0).2 = true ∧
      fileExists (taskRun c5RaiseState 0).1.files (getTask c5RaiseState 0).name "SUCCESS"
        = fileExists c5RaiseState.files (getTask c5RaiseState 0).name "SUCCESS" ∧
      fileExists (taskRun c5RaiseState 0).1.files (getTask c5RaiseState 0).name "FAILED"
        = fileExists c5RaiseState.files (getTask c5RaiseState 0).name "FAILED") ∧
    ((taskRun c5CopyErrState 0).2 = false ∧
      (taskRun c5CopyErrState 0).1.calls = c5CopyErrState.calls ++ [0]) :=
  ⟨(c5_exception_handling c5RaiseState 0 (by decide)).1 (by decide),
   (c5_exception_handling c5CopyErrState 0 (by decide)).2 (by decide) (by decide) (by decide)⟩

/-- Claim C5 counterexample: a unit whose config copy raises an I/O error
is not fatal to the invocation - the work function is still invoked and
the unit ends marked SUCCESS, contradicting that any exception during the
run (the copy step included) terminates the process. -/
theorem c5_counterexample :
    (taskRun c5CopyErrState 0).2 = false ∧
    (taskRun c5CopyErrState 0).1.calls = [0] ∧
    (getTask (taskRun c5CopyErrState 0).1 0).status = some "SUCCESS" ∧
    fileExists (taskRun c5CopyErrState 0).1.files ["runs", "conf", "run_1"] "SUCCESS"
      = true := by
  decide

/-- Claim C6: whenever TaskRunner.run acquires the Execution Lock (the
lock was free when it was called), the final state has no lock file, on
the normal path and on the fatal path alike - the release sits in the
finally block, which also runs when SystemExit propagates. -/
theorem c6_lock_released_on_all_paths (tasksDir : String) (s : Sys)
    (h : s.lock = none) :
    (runnerRun tasksDir s).1.lock = none := by
  unfold runnerRun lockAcquire
  rw [h]
  dsimp only
  split <;> rfl

/-- Claim C6 witness on an empty system. -/
theorem c6_lock_released_on_all_paths_witness :
    emptySys.lock = none ∧ (runnerRun "runs/" emptySys).1.lock = none :=
  ⟨rfl, c6_lock_released_on_all_paths "runs/" emptySys rfl⟩

/-- Claim C7: if the lock file already exists, run() returns status 1 and
the state is returned completely unchanged (no marker touched, no work
function invoked); if the lock file is absent, acquire creates it holding
the label of the caller and returns true. -/
theorem c7_lock_contention (tasksDir : String) (s : Sys) :
    (∀ l, s.lock = some l → runnerRun tasksDir s = (s, RunnerResult.ret 1)) ∧
    (s.lock = none → lockAcquire s tasksDir = ({ s with lock := some tasksDir }, true)) := by
  constructor
  · intro l h
    unfold runnerRun lockAcquire
    rw [h]
  · intro h
    unfold lockAcquire
    rw [h]

/-- Claim C7 witness: a pre-existing lock labelled other-run makes run()
return 1 with the state (existing markers included) untouched; on a free
lock, acquire writes the label and succeeds. -/
theorem c7_lock_contention_witness :
    runnerRun "runs/" c7LockedState = (c7LockedState, RunnerResult.ret 1) ∧
    lockAcquire emptySys "runs/" = ({ emptySys with lock := some "runs/" }, true) :=
  ⟨(c7_lock_contention "runs/" c7LockedState).1 "other-run" rfl,
   (c7_lock_contention "runs/" emptySys).2 rfl⟩

/-- Claim C8 (amended): the constructor check accepts a name exactly when
it exists on disk and its string form starts with runs/ - or when its
string form is the bare root name runs, which is accepted WITHOUT an
existence check; hence every successfully constructed unit either names an
existing path or is the root. -/
theorem c8_construction_check (dirs : List (List String)) (name : List String)
    (h : taskInitOk dirs name = true) :
    name ∈ dirs ∨ strOfPath name = "runs" := by
  unfold taskInitOk at h
  rcases boolOrElim h with h1 | h2
  · exact Or.inl (of_decide_eq_true (boolAndElim h1).1)
  · exact Or.inr (of_decide_eq_true h2)

/-- Claim C8 witness at an existing directory under the root. -/
theorem c8_construction_check_witness :
    taskInitOk [["runs", "conf"]] ["runs", "conf"] = true ∧
    (["runs", "conf"] ∈ [["runs", "conf"]] ∨ strOfPath ["runs", "conf"] = "runs") :=
  ⟨by decide, c8_construction_check [["runs", "conf"]] ["runs", "conf"] (by decide)⟩

/-- Claim C8 counterexample: the name runs passes the constructor check on
an empty filesystem, so a Work Unit is constructed for a directory that
does not exist. -/
theorem c8_counterexample :
    taskInitOk [] ["runs"] = true ∧
    (["runs"] : List String) ∉ ([] : List (List String)) := by
  decide

theorem walkedTask_name (work : List String → RunResult)
    (dirs : List (List String)) (q : List String) :
    (walkedTask work dirs q).name = q := by
  unfold walkedTask
  split
  · rfl
  · rfl

theorem map_name_walked (work : List String → RunResult) (dirs : List (List String)) :
    ∀ l : List (List String),
      (l.map (walkedTask work dirs)).map (fun t => t.name) = l
  | [] => rfl
  | q :: l => by
    simp only [List.map_cons, walkedTask_name]
    rw [map_name_walked work dirs l]

/-- Claim C9 (amended): discovery with the sweep root as target creates
exactly two units carrying the root directory name (the always-created
main unit plus the unit for the target itself); any other directory is
carried by at most one unit, and every on-disk directory strictly below
the root by exactly one unit (assuming the on-disk directory list has no
duplicates). -/
theorem c9_root_directory_units (work : List String → RunResult)
    (dirs : List (List String)) (hnd : dirs.Nodup)
    (q : List String) (hq : q ≠ ["runs"]) :
    ((createTasks work ["runs"] dirs).map (fun t => t.name)).count ["runs"] = 2 ∧
    ((createTasks work ["runs"] dirs).map (fun t => t.name)).count q ≤ 1 ∧
    (q ∈ dirs → (["runs"] : List String).isPrefixOf q = true →
      ((createTasks work ["runs"] dirs).map (fun t => t.name)).count q = 1) := by
  have hc : strContains (strOfPath (["runs"] : List String)) "run_" = false := by decide
  have hnames : (createTasks work ["runs"] dirs).map (fun t => t.name)
      = ["runs"] :: ["runs"]
        :: dirs.filter
          (fun x => (["runs"] : List String).isPrefixOf x && decide (x ≠ ["runs"])) := by
    unfold createTasks
    rw [List.map_cons, List.map_cons, map_name_walked, hc]
    rw [if_neg (by decide : ¬(false = true))]
    rfl
  rw [hnames]
  have hfq : ((["runs"] : List String) :: ["runs"]
      :: dirs.filter
        (fun x => (["runs"] : List String).isPrefixOf x
          && decide (x ≠ ["runs"]))).count q
      = (dirs.filter
        (fun x => (["runs"] : List String).isPrefixOf x
          && decide (x ≠ ["runs"]))).count q := by
    have hf : ((["runs"] : List String) == q) = false := by
      rw [beq_eq_false_iff_ne]
      exact fun e => hq e.symm
    rw [List.count_cons, List.count_cons, hf]
    simp
  refine ⟨?_, ?_, ?_⟩
  · have h0 : (dirs.filter
        (fun x => (["runs"] : List String).isPrefixOf x
          && decide (x ≠ ["runs"]))).count (["runs"] : List String) = 0 := by
      rw [List.count_eq_zero]
      intro hmem
      have hpred := (List.mem_filter.mp hmem).2
      have h2 := (boolAndElim hpred).2
      exact absurd rfl (of_decide_eq_true h2)
    rw [List.count_cons, List.count_cons, h0]
    decide
  · have hsub : (dirs.filter
        (fun x => (["runs"] : List String).isPrefixOf x
          && decide (x ≠ ["runs"]))).count q ≤ dirs.count q :=
      (List.filter_sublist dirs).count_le q
    have hone : dirs.count q ≤ 1 := count_le_one_of_nodup hnd q
    rw [hfq]
    exact le_trans hsub hone
  · intro hmem hpre
    rw [hfq]
    have hdec : decide (q ≠ (["runs"] : List String)) = true := decide_eq_true hq
    have hqF : q ∈ dirs.filter
        (fun x => (["runs"] : List String).isPrefixOf x && decide (x ≠ ["runs"])) := by
      refine List.mem_filter.mpr ⟨hmem, ?_⟩
      rw [hpre, hdec]
      rfl
    have hFnd : (dirs.filter
        (fun x => (["runs"] : List String).isPrefixOf x
          && decide (x ≠ ["runs"]))).Nodup := hnd.filter _
    exact count_eq_one_of_mem_nodup hFnd hqF

/-- Claim C9 witness: on the flat two-leaf tree, the root appears twice
and the leaf directory once. -/
theorem c9_root_directory_units_witness :
    ((createTasks (fun _ => RunResult.ret (some 0)) ["runs"] scenario1Dirs).map
        (fun t => t.name)).count ["runs"] = 2 ∧
    ((createTasks (fun _ => RunResult.ret (some 0)) ["runs"] scenario1Dirs).map
        (fun t => t.name)).count ["runs", "run_1"] ≤ 1 ∧
    ((createTasks (fun _ => RunResult.ret (some 0)) ["runs"] scenario1Dirs).map
        (fun t => t.name)).count ["runs", "run_1"] = 1 :=
  ⟨(c9_root_directory_units (fun _ => RunResult.ret (some 0)) scenario1Dirs
      (by decide) ["runs", "run_1"] (by decide)).1,
   (c9_root_directory_units (fun _ => RunResult.ret (some 0)) scenario1Dirs
      (by decide) ["runs", "run_1"] (by decide)).2.1,
   (c9_root_directory_units (fun _ => RunResult.ret (some 0)) scenario1Dirs
      (by decide) ["runs", "run_1"] (by decide)).2.2 (by decide) (by decide)⟩

/-- Claim C9 counterexample: after the discovery on the flat two-leaf
tree, the physical root directory runs is represented by TWO distinct
Work Units, not one. -/
theorem c9_counterexample :
    (scenario1Tasks.map (fun t => t.name)).count ["runs"] = 2 := by
  decide

/-- Claim C2 counterexample: a stale FAILED marker in the parent directory
makes check_status set the parent to FAILED although its only dependency
is completed with status SUCCESS - refuting that, once all dependencies
are completed, the parent is Success if and only if all dependencies are. -/
theorem c2_counterexample :
    (checkStatus 2 0 c2State).map (fun s2 =>
      ((getTask s2 1).completed, (getTask s2 1).status,
       (getTask s2 0).completed, (getTask s2 0).status))
    = some (true, some "SUCCESS", true, some "FAILED") := by
  decide

/-- Claim C10 witness: parent over a FAILED leaf followed by a pending
leaf: the parent directory receives a FAILED marker while the parent
itself stays incomplete with its status untouched. -/
theorem c10_premature_failed_marker_witness :
    ∃ s2, checkStatus 2 0 c10State = some s2 ∧
      fileExists s2.files (getTask c10State 0).name "FAILED" = true ∧
      (getTask s2 0).completed = false ∧
      (getTask s2 0).status = (getTask c10State 0).status :=
  c10_premature_failed_marker c10State 0 1 2 (by decide) (by decide) (by decide)
    (by decide) (by decide) (by decide) (by decide) (by decide) (by decide)
    (by decide) (by decide) (by decide) (by decide)

/-! Helper lemmas for the whole-tree characterization of check_status. -/

theorem getD_set_ge {α : Type} :
    ∀ (l : List α) (i : Nat) (a d : α), l.length ≤ i → (l.set i a).getD i d = l.getD i d
  | [], _, _, _, _ => rfl
  | _ :: _, 0, _, _, h => absurd h (by simp)
  | _ :: xs, i + 1, a, d, h => getD_set_ge xs i a d (Nat.le_of_succ_le_succ h)

theorem list_all_congr {α : Type} {xs : List α} {p q : α → Bool}
    (h : ∀ x ∈ xs, p x = q x) : xs.all p = xs.all q := by
  induction xs with
  | nil => rfl
  | cons y ys ih =>
    have hy : p y = q y := h y (List.mem_cons_self y ys)
    have hys := ih (fun z hz => h z (List.mem_cons_of_mem y hz))
    simp only [List.all_cons, hy, hys]

theorem list_map_congr {α β : Type} {l : List α} {f g : α → β}
    (h : ∀ a ∈ l, f a = g a) : l.map f = l.map g := by
  induction l with
  | nil => rfl
  | cons a t ih =>
    simp only [List.map_cons]
    rw [h a (List.mem_cons_self a t), ih (fun b hb => h b (List.mem_cons_of_mem a hb))]

theorem sameShape_refl (s : Sys) : sameShape s s := ⟨rfl, fun _ => ⟨rfl, rfl, rfl⟩⟩

theorem sameShape_trans {s t u : Sys} (h1 : sameShape s t) (h2 : sameShape t u) :
    sameShape s u := by
  refine ⟨h2.1.trans h1.1, fun j => ?_⟩
  obtain ⟨a1, b1, c1⟩ := h1.2 j
  obtain ⟨a2, b2, c2⟩ := h2.2 j
  exact ⟨a2.trans a1, b2.trans b1, c2.trans c1⟩

theorem sameShape_setTask (s : Sys) (i : Nat) (f : TaskState → TaskState)
    (hf : ∀ u, (f u).name = u.name ∧ (f u).isParent = u.isParent ∧ (f u).deps = u.deps) :
    sameShape s (setTask s i f) := by
  refine ⟨setTask_length s i f, fun j => ?_⟩
  by_cases hij : j = i
  · subst hij
    by_cases hj : j < s.tasks.length
    · rw [getTask_setTask_same s j f hj]
      exact hf (getTask s j)
    · have hsame : getTask (setTask s j f) j = getTask s j := by
        unfold getTask setTask
        exact getD_set_ge _ _ _ _ (Nat.le_of_not_lt hj)
      rw [hsame]
      exact ⟨rfl, rfl, rfl⟩
  · rw [getTask_setTask_other s i j f hij]
    exact ⟨rfl, rfl, rfl⟩

theorem sameShape_updateFiles (s : Sys) (fs : List FileEntry) :
    sameShape s { s with files := fs } := ⟨rfl, fun _ => ⟨rfl, rfl, rfl⟩⟩

theorem sameShape_leafCheck (s : Sys) (d : Nat) : sameShape s (leafCheck s d) := by
  unfold leafCheck
  split
  · exact sameShape_setTask _ _ _ (fun _ => ⟨rfl, rfl, rfl⟩)
  · split
    · exact sameShape_setTask _ _ _ (fun _ => ⟨rfl, rfl, rfl⟩)
    · exact sameShape_setTask _ _ _ (fun _ => ⟨rfl, rfl, rfl⟩)

theorem name_mem_subtreeNames {fuel : Nat} {s : Sys} {i : Nat}
    (h : treeOK fuel s i = true) :
    (getTask s i).name ∈ subtreeNames fuel s i := by
  cases fuel with
  | zero => exact Bool.noConfusion h
  | succ fuel =>
    unfold subtreeNames
    exact List.mem_cons_self _ _

theorem mem_subtreeNames_of_dep {fuel : Nat} {s : Sys} {i d : Nat}
    (hpar : (getTask s i).isParent = true) (hd : d ∈ (getTask s i).deps)
    {q : List String} (hq : q ∈ subtreeNames fuel s d) :
    q ∈ subtreeNames (fuel + 1) s i := by
  unfold subtreeNames
  rw [if_pos hpar]
  exact List.mem_cons_of_mem _
    (List.mem_flatten.mpr ⟨subtreeNames fuel s d, List.mem_map.mpr ⟨d, hd, rfl⟩, hq⟩)

theorem treeOK_succ_elim {fuel : Nat} {s : Sys} {i : Nat}
    (h : treeOK (fuel + 1) s i = true) :
    i < s.tasks.length ∧
    ((getTask s i).isParent = true → ∀ d ∈ (getTask s i).deps, treeOK fuel s d = true) := by
  unfold treeOK at h
  obtain ⟨h1, h2⟩ := boolAndElim h
  refine ⟨of_decide_eq_true h1, fun hpar => ?_⟩
  rw [if_pos hpar] at h2
  exact fun d hd => List.all_eq_true.mp h2 d hd

theorem subtreeNames_congr {s s2 : Sys} (h : sameShape s s2) :
    ∀ (fuel : Nat) (i : Nat), subtreeNames fuel s2 i = subtreeNames fuel s i := by
  intro fuel
  induction fuel with
  | zero => intro i; rfl
  | succ fuel ih =>
    intro i
    obtain ⟨hn, hp, hd⟩ := h.2 i
    unfold subtreeNames
    rw [hn, hp, hd]
    by_cases hpar : (getTask s i).isParent = true
    · rw [if_pos hpar, if_pos hpar,
        show (getTask s i).deps.map (fun d => subtreeNames fuel s2 d)
          = (getTask s i).deps.map (fun d => subtreeNames fuel s d) from
          list_map_congr (fun d _ => ih d)]
    · rw [if_neg hpar, if_neg hpar]

theorem treeOK_congr {s s2 : Sys} (h : sameShape s s2) :
    ∀ (fuel : Nat) (i : Nat), treeOK fuel s2 i = treeOK fuel s i := by
  intro fuel
  induction fuel with
  | zero => intro i; rfl
  | succ fuel ih =>
    intro i
    obtain ⟨hn, hp, hd⟩ := h.2 i
    unfold treeOK
    rw [hp, hd, h.1]
    by_cases hpar : (getTask s i).isParent = true
    · rw [if_pos hpar, if_pos hpar,
        show (getTask s i).deps.all (fun d => treeOK fuel s2 d)
          = (getTask s i).deps.all (fun d => treeOK fuel s d) from
          list_all_congr (fun d _ => ih d)]
    · rw [if_neg hpar, if_neg hpar]

theorem evalCompleted_congr {s s2 : Sys} (h : sameShape s s2) :
    ∀ (fuel : Nat) (i : Nat),
      (∀ q g, q ∈ subtreeNames fuel s i →
        fileExists s2.files q g = fileExists s.files q g) →
      evalCompleted fuel s2 i = evalCompleted fuel s i := by
  intro fuel
  induction fuel with
  | zero => intro i _; rfl
  | succ fuel ih =>
    intro i hfiles
    obtain ⟨hn, hp, hd⟩ := h.2 i
    unfold evalCompleted
    rw [hn, hp, hd]
    by_cases hpar : (getTask s i).isParent = true
    · rw [if_pos hpar, if_pos hpar]
      refine list_all_congr (fun d hdm => ih d (fun q g hq => ?_))
      exact hfiles q g (mem_subtreeNames_of_dep hpar hdm hq)
    · rw [if_neg hpar, if_neg hpar]
      have hhead : (getTask s i).name ∈ subtreeNames (fuel + 1) s i := by
        unfold subtreeNames
        exact List.mem_cons_self _ _
      rw [hfiles (getTask s i).name "SUCCESS" hhead,
        hfiles (getTask s i).name "FAILED" hhead]

theorem evalSuccess_congr {s s2 : Sys} (h : sameShape s s2) :
    ∀ (fuel : Nat) (i : Nat),
      (∀ q g, q ∈ subtreeNames fuel s i →
        fileExists s2.files q g = fileExists s.files q g) →
      evalSuccess fuel s2 i = evalSuccess fuel s i := by
  intro fuel
  induction fuel with
  | zero => intro i _; rfl
  | succ fuel ih =>
    intro i hfiles
    obtain ⟨hn, hp, hd⟩ := h.2 i
    unfold evalSuccess
    rw [hn, hp, hd]
    have hhead : (getTask s i).name ∈ subtreeNames (fuel + 1) s i := by
      unfold subtreeNames
      exact List.mem_cons_self _ _
    by_cases hpar : (getTask s i).isParent = true
    · rw [if_pos hpar, if_pos hpar, hfiles (getTask s i).name "FAILED" hhead,
        show (getTask s i).deps.all (fun d => evalSuccess fuel s2 d)
          = (getTask s i).deps.all (fun d => evalSuccess fuel s d) from
          list_all_congr (fun d hdm =>
            ih d (fun q g hq => hfiles q g (mem_subtreeNames_of_dep hpar hdm hq)))]
    · rw [if_neg hpar, if_neg hpar, hfiles (getTask s i).name "SUCCESS" hhead]

theorem sameShape_markParentCompleted (s1 : Sys) (i : Nat) :
    sameShape s1 (markParentCompleted s1 i) :=
  sameShape_setTask s1 i _ (fun _ => ⟨rfl, rfl, rfl⟩)

theorem sameShape_finalizeParent (s1 : Sys) (i : Nat) :
    sameShape s1 (finalizeParent s1 i) := by
  unfold finalizeParent
  split
  · exact sameShape_trans (sameShape_markParentCompleted s1 i)
      (sameShape_setTask _ i _ (fun _ => ⟨rfl, rfl, rfl⟩))
  · exact sameShape_trans (sameShape_markParentCompleted s1 i)
      (sameShape_trans (sameShape_updateFiles _ _)
        (sameShape_setTask _ i _ (fun _ => ⟨rfl, rfl, rfl⟩)))

theorem getTask_finalizeParent_other (s1 : Sys) (i j : Nat) (hj : j ≠ i) :
    getTask (finalizeParent s1 i) j = getTask s1 j := by
  unfold finalizeParent
  split
  · rw [getTask_setTask_other _ _ _ _ hj]
    exact getTask_setTask_other _ _ _ _ hj
  · rw [getTask_setTask_other _ _ _ _ hj, getTask_updateFiles]
    exact getTask_setTask_other _ _ _ _ hj

theorem finalizeParent_files_ne (s1 : Sys) (i : Nat) (q : List String) (g : String)
    (h : ¬(q = (getTask s1 i).name ∧ g = "SUCCESS")) :
    fileExists (finalizeParent s1 i).files q g = fileExists s1.files q g := by
  have hname : (getTask (markParentCompleted s1 i) i).name = (getTask s1 i).name :=
    ((sameShape_markParentCompleted s1 i).2 i).1
  unfold finalizeParent
  split
  · rfl
  · show fileExists (touchFile s1.files
        (getTask (markParentCompleted s1 i) i).name "SUCCESS") q g
      = fileExists s1.files q g
    rw [hname]
    exact fileExists_touchFile_ne _ _ _ _ _ h

/-! The generalized dependency-loop lemmas: the dependencies of a parent
may themselves be parents; their recursive check is described by the
specification hypothesis IH, discharged below by checkStatus_spec. -/

theorem checkDepsLoopSpec_step (fuel : Nat)
    (IH : ∀ (sx : Sys) (dx : Nat), treeOK fuel sx dx = true →
      (subtreeNames fuel sx dx).Nodup →
      ∃ s2, checkStatus fuel dx sx = some s2 ∧ sameShape sx s2 ∧
        (∀ j, (getTask sx j).name ∉ subtreeNames fuel sx dx →
          getTask s2 j = getTask sx j) ∧
        (∀ q g, q ∉ subtreeNames fuel sx dx →
          fileExists s2.files q g = fileExists sx.files q g) ∧
        (getTask s2 dx).completed = evalCompleted fuel sx dx ∧
        (if evalCompleted fuel sx dx = true then
          (getTask s2 dx).status =
            some (if evalSuccess fuel sx dx = true then "SUCCESS" else "FAILED")
        else (getTask s2 dx).status = (getTask sx dx).status))
    (par d : Nat) (rest : List Nat) (s : Sys)
    (htree : treeOK fuel s d = true)
    (hnd : (subtreeNames fuel s d).Nodup)
    (hpn : (getTask s par).name ∉ subtreeNames fuel s d)
    (hcomp : evalCompleted fuel s d = true) :
    ∃ sc, checkDepsLoopWith (checkStatus fuel) par (d :: rest) s =
        checkDepsLoopWith (checkStatus fuel) par rest sc ∧
      sameShape s sc ∧
      (∀ j, (getTask s j).name ∉ subtreeNames fuel s d → getTask sc j = getTask s j) ∧
      (∀ q g, ¬(q = (getTask s par).name ∧ g = "FAILED") →
        q ∉ subtreeNames fuel s d →
        fileExists sc.files q g = fileExists s.files q g) ∧
      fileExists sc.files (getTask s par).name "FAILED" =
        (fileExists s.files (getTask s par).name "FAILED" || !evalSuccess fuel s d) ∧
      (getTask sc d).completed = true ∧
      ((getTask sc d).status = some "SUCCESS" ↔ evalSuccess fuel s d = true) := by
  obtain ⟨s1, hcheck, hshape1, hents1, hfiles1, hcomp1, hstat1⟩ := IH s d htree hnd
  rw [if_pos hcomp] at hstat1
  have hcomp1x : (getTask s1 d).completed = true := hcomp1.trans hcomp
  have hparent1 : getTask s1 par = getTask s par := hents1 par hpn
  have hstep := checkDepsLoopWith_cons_step (checkStatus fuel) par d rest s s1 hcheck
  have hnotc : ¬((getTask s1 d).completed = false) := by
    rw [hcomp1x]
    exact fun e => Bool.noConfusion e
  by_cases hS : evalSuccess fuel s d = true
  · have hst : (getTask s1 d).status = some "SUCCESS" := by
      rw [hstat1, if_pos hS]
    have hnots : ¬((getTask s1 d).status ≠ some "SUCCESS") := fun hne => hne hst
    rw [hstep, if_neg hnotc, if_neg hnots]
    refine ⟨s1, rfl, hshape1, hents1, (fun q g _ hq => hfiles1 q g hq), ?_, hcomp1x, ?_⟩
    · rw [hfiles1 _ _ hpn, hS]
      simp
    · rw [hst, hS]
      simp
  · have hSf : evalSuccess fuel s d = false := boolEqFalse hS
    have hst : (getTask s1 d).status = some "FAILED" := by
      rw [hstat1, if_neg hS]
    have hyes : (getTask s1 d).status ≠ some "SUCCESS" := by
      rw [hst]
      decide
    rw [hstep, if_neg hnotc, if_pos hyes, hparent1]
    refine ⟨{ s1 with
        files := touchFile s1.files (getTask s par).name "FAILED" },
      rfl, ?_, ?_, ?_, ?_, ?_, ?_⟩
    · exact sameShape_trans hshape1 (sameShape_updateFiles s1 _)
    · intro j hj
      rw [getTask_updateFiles]
      exact hents1 j hj
    · intro q g hqg hq
      show fileExists (touchFile s1.files (getTask s par).name "FAILED") q g
        = fileExists s.files q g
      rw [fileExists_touchFile_ne _ _ _ _ _ hqg]
      exact hfiles1 q g hq
    · show fileExists (touchFile s1.files (getTask s par).name "FAILED")
        (getTask s par).name "FAILED"
        = (fileExists s.files (getTask s par).name "FAILED" || !evalSuccess fuel s d)
      rw [fileExists_touchFile_self, hSf]
      simp
    · rw [getTask_updateFiles]
      exact hcomp1x
    · rw [getTask_updateFiles, hst, hSf]
      simp

theorem checkDepsLoopSpec_complete (fuel : Nat)
    (IH : ∀ (sx : Sys) (dx : Nat), treeOK fuel sx dx = true →
      (subtreeNames fuel sx dx).Nodup →
      ∃ s2, checkStatus fuel dx sx = some s2 ∧ sameShape sx s2 ∧
        (∀ j, (getTask sx j).name ∉ subtreeNames fuel sx dx →
          getTask s2 j = getTask sx j) ∧
        (∀ q g, q ∉ subtreeNames fuel sx dx →
          fileExists s2.files q g = fileExists sx.files q g) ∧
        (getTask s2 dx).completed = evalCompleted fuel sx dx ∧
        (if evalCompleted fuel sx dx = true then
          (getTask s2 dx).status =
            some (if evalSuccess fuel sx dx = true then "SUCCESS" else "FAILED")
        else (getTask s2 dx).status = (getTask sx dx).status))
    (par : Nat) :
    ∀ (deps : List Nat) (s : Sys),
      par < s.tasks.length →
      (∀ d ∈ deps, treeOK fuel s d = true) →
      ((getTask s par).name
        :: (deps.map (fun d => subtreeNames fuel s d)).flatten).Nodup →
      (∀ d ∈ deps, evalCompleted fuel s d = true) →
      ∃ s2, checkDepsLoopWith (checkStatus fuel) par deps s = some (s2, false) ∧
        sameShape s s2 ∧
        getTask s2 par = getTask s par ∧
        (∀ j, (getTask s j).name ∉
            (getTask s par).name
              :: (deps.map (fun d => subtreeNames fuel s d)).flatten →
          getTask s2 j = getTask s j) ∧
        (∀ q g, ¬(q = (getTask s par).name ∧ g = "FAILED") →
          q ∉ (deps.map (fun d => subtreeNames fuel s d)).flatten →
          fileExists s2.files q g = fileExists s.files q g) ∧
        fileExists s2.files (getTask s par).name "FAILED" =
          (fileExists s.files (getTask s par).name "FAILED" ||
            deps.any (fun d => !evalSuccess fuel s d)) ∧
        (∀ d ∈ deps, (getTask s2 d).completed = true ∧
          ((getTask s2 d).status = some "SUCCESS" ↔ evalSuccess fuel s d = true)) := by
  intro deps
  induction deps with
  | nil =>
    intro s _ _ _ _
    exact ⟨s, rfl, sameShape_refl s, rfl, fun _ _ => rfl, fun _ _ _ _ => rfl, by simp,
      fun d hd => absurd hd (List.not_mem_nil d)⟩
  | cons d rest ih =>
    intro s hpar htrees hnodup hall
    have hmapflat : ((d :: rest).map (fun x => subtreeNames fuel s x)).flatten
        = subtreeNames fuel s d ++ (rest.map (fun x => subtreeNames fuel s x)).flatten := by
      rw [List.map_cons, List.flatten_cons]
    rw [hmapflat] at hnodup
    obtain ⟨hpnall, hndrest⟩ := List.nodup_cons.mp hnodup
    obtain ⟨hndd, hndfr, hdisj⟩ := List.nodup_append.mp hndrest
    have hpnd : (getTask s par).name ∉ subtreeNames fuel s d :=
      fun hm => hpnall (List.mem_append.mpr (Or.inl hm))
    have hpnfr : (getTask s par).name
        ∉ (rest.map (fun x => subtreeNames fuel s x)).flatten :=
      fun hm => hpnall (List.mem_append.mpr (Or.inr hm))
    have htreed : treeOK fuel s d = true := htrees d (List.mem_cons_self d rest)
    obtain ⟨sc, hstep, hshapec, hentsc, hfilesc, hfailc, hcompc, hstatc⟩ :=
      checkDepsLoopSpec_step fuel IH par d rest s htreed hndd hpnd
        (hall d (List.mem_cons_self d rest))
    have hscname : ∀ j, (getTask sc j).name = (getTask s j).name :=
      fun j => ((hshapec.2 j).1)
    have hscsub : ∀ x, subtreeNames fuel sc x = subtreeNames fuel s x :=
      fun x => subtreeNames_congr hshapec fuel x
    have hscflat : (rest.map (fun x => subtreeNames fuel sc x)).flatten
        = (rest.map (fun x => subtreeNames fuel s x)).flatten := by
      rw [show rest.map (fun x => subtreeNames fuel sc x)
          = rest.map (fun x => subtreeNames fuel s x) from
        list_map_congr (fun x _ => hscsub x)]
    have hfilesub : ∀ (x : Nat), x ∈ rest → ∀ q g, q ∈ subtreeNames fuel s x →
        fileExists sc.files q g = fileExists s.files q g := by
      intro x hx q g hq
      have hqfr : q ∈ (rest.map (fun y => subtreeNames fuel s y)).flatten :=
        List.mem_flatten.mpr ⟨subtreeNames fuel s x,
          List.mem_map.mpr ⟨x, hx, rfl⟩, hq⟩
      refine hfilesc q g (fun hc => hpnfr ?_) (fun hm => hdisj hm hqfr)
      rw [← hc.1]
      exact hqfr
    have hparc : par < sc.tasks.length := by
      rw [hshapec.1]
      exact hpar
    have htreesc : ∀ x ∈ rest, treeOK fuel sc x = true := by
      intro x hx
      rw [treeOK_congr hshapec fuel x]
      exact htrees x (List.mem_cons_of_mem d hx)
    have hnodupc : ((getTask sc par).name
        :: (rest.map (fun x => subtreeNames fuel sc x)).flatten).Nodup := by
      rw [hscname par, hscflat]
      exact List.nodup_cons.mpr ⟨hpnfr, hndfr⟩
    have hallc : ∀ x ∈ rest, evalCompleted fuel sc x = true := by
      intro x hx
      rw [evalCompleted_congr hshapec fuel x (fun q g hq => hfilesub x hx q g hq)]
      exact hall x (List.mem_cons_of_mem d hx)
    obtain ⟨s2, hloop2, hshape2, hparent2, hents2, hfiles2, hfail2, hdeps2⟩ :=
      ih sc hparc htreesc hnodupc hallc
    have hparsc : getTask sc par = getTask s par := hentsc par hpnd
    refine ⟨s2, by rw [hstep]; exact hloop2, sameShape_trans hshapec hshape2, ?_, ?_,
      ?_, ?_, ?_⟩
    · rw [hparent2, hparsc]
    · intro j hj
      rw [hmapflat] at hj
      have hjd : (getTask s j).name ∉ subtreeNames fuel s d := fun hm =>
        hj (List.mem_cons_of_mem _ (List.mem_append.mpr (Or.inl hm)))
      have hjfr : (getTask s j).name
          ∉ (rest.map (fun x => subtreeNames fuel s x)).flatten := fun hm =>
        hj (List.mem_cons_of_mem _ (List.mem_append.mpr (Or.inr hm)))
      have hjpn : (getTask s j).name ≠ (getTask s par).name := fun e =>
        hj (by rw [e]; exact List.mem_cons_self _ _)
      have h2 : getTask s2 j = getTask sc j := by
        refine hents2 j ?_
        rw [hscname j, hscname par, hscflat]
        intro hm
        rcases List.mem_cons.mp hm with he | hr
        · exact hjpn he
        · exact hjfr hr
      rw [h2]
      exact hentsc j hjd
    · intro q g hqg hqm
      rw [hmapflat] at hqm
      have hqd : q ∉ subtreeNames fuel s d :=
        fun hm => hqm (List.mem_append.mpr (Or.inl hm))
      have hqfr : q ∉ (rest.map (fun x => subtreeNames fuel s x)).flatten :=
        fun hm => hqm (List.mem_append.mpr (Or.inr hm))
      have h2 : fileExists s2.files q g = fileExists sc.files q g := by
        refine hfiles2 q g ?_ ?_
        · rw [hscname par]
          exact hqg
        · rw [hscflat]
          exact hqfr
      rw [h2]
      exact hfilesc q g hqg hqd
    · rw [hscname par] at hfail2
      have hany : rest.any (fun x => !evalSuccess fuel sc x)
          = rest.any (fun x => !evalSuccess fuel s x) := by
        refine list_any_congr (fun x hx => ?_)
        rw [evalSuccess_congr hshapec fuel x (fun q g hq => hfilesub x hx q g hq)]
      rw [hfail2, hany, hfailc, List.any_cons, Bool.or_assoc]
    · intro x hx
      rcases List.mem_cons.mp hx with he | hr
      · subst he
        have hnamex : (getTask s x).name ∈ subtreeNames fuel s x :=
          name_mem_subtreeNames htreed
        have h2 : getTask s2 x = getTask sc x := by
          refine hents2 x ?_
          rw [hscname x, hscname par, hscflat]
          intro hm
          rcases List.mem_cons.mp hm with he2 | hr2
          · exact hpnd (he2 ▸ hnamex)
          · exact hdisj hnamex hr2
        rw [h2]
        exact ⟨hcompc, hstatc⟩
      · have hres := hdeps2 x hr
        have hcongr : evalSuccess fuel sc x = evalSuccess fuel s x :=
          evalSuccess_congr hshapec fuel x (fun q g hq => hfilesub x hr q g hq)
        rw [hcongr] at hres
        exact hres

theorem checkDepsLoopSpec_incomplete (fuel : Nat)
    (IH : ∀ (sx : Sys) (dx : Nat), treeOK fuel sx dx = true →
      (subtreeNames fuel sx dx).Nodup →
      ∃ s2, checkStatus fuel dx sx = some s2 ∧ sameShape sx s2 ∧
        (∀ j, (getTask sx j).name ∉ subtreeNames fuel sx dx →
          getTask s2 j = getTask sx j) ∧
        (∀ q g, q ∉ subtreeNames fuel sx dx →
          fileExists s2.files q g = fileExists sx.files q g) ∧
        (getTask s2 dx).completed = evalCompleted fuel sx dx ∧
        (if evalCompleted fuel sx dx = true then
          (getTask s2 dx).status =
            some (if evalSuccess fuel sx dx = true then "SUCCESS" else "FAILED")
        else (getTask s2 dx).status = (getTask sx dx).status))
    (par : Nat) :
    ∀ (deps : List Nat) (s : Sys),
      par < s.tasks.length →
      (∀ d ∈ deps, treeOK fuel s d = true) →
      ((getTask s par).name
        :: (deps.map (fun d => subtreeNames fuel s d)).flatten).Nodup →
      (∃ d ∈ deps, evalCompleted fuel s d = false) →
      ∃ s2, checkDepsLoopWith (checkStatus fuel) par deps s = some (s2, true) ∧
        getTask s2 par = { getTask s par with completed := false } ∧
        sameShape s s2 ∧
        (∀ j, (getTask s j).name ∉
            (getTask s par).name
              :: (deps.map (fun d => subtreeNames fuel s d)).flatten →
          getTask s2 j = getTask s j) ∧
        (∀ q g, ¬(q = (getTask s par).name ∧ g = "FAILED") →
          q ∉ (deps.map (fun d => subtreeNames fuel s d)).flatten →
          fileExists s2.files q g = fileExists s.files q g) ∧
        ∃ d0, d0 ∈ deps ∧ (getTask s2 d0).completed = false := by
  intro deps
  induction deps with
  | nil =>
    intro s _ _ _ hex
    rcases hex with ⟨d, hd, _⟩
    exact absurd hd (List.not_mem_nil d)
  | cons d rest ih =>
    intro s hpar htrees hnodup hex
    have hmapflat : ((d :: rest).map (fun x => subtreeNames fuel s x)).flatten
        = subtreeNames fuel s d ++ (rest.map (fun x => subtreeNames fuel s x)).flatten := by
      rw [List.map_cons, List.flatten_cons]
    rw [hmapflat] at hnodup
    obtain ⟨hpnall, hndrest⟩ := List.nodup_cons.mp hnodup
    obtain ⟨hndd, hndfr, hdisj⟩ := List.nodup_append.mp hndrest
    have hpnd : (getTask s par).name ∉ subtreeNames fuel s d :=
      fun hm => hpnall (List.mem_append.mpr (Or.inl hm))
    have hpnfr : (getTask s par).name
        ∉ (rest.map (fun x => subtreeNames fuel s x)).flatten :=
      fun hm => hpnall (List.mem_append.mpr (Or.inr hm))
    have htreed : treeOK fuel s d = true := htrees d (List.mem_cons_self d rest)
    have hdpar : d ≠ par := by
      intro e
      subst e
      exact hpnd (name_mem_subtreeNames htreed)
    by_cases hceq : evalCompleted fuel s d = true
    · obtain ⟨sc, hstep, hshapec, hentsc, hfilesc, hfailc, hcompc, hstatc⟩ :=
        checkDepsLoopSpec_step fuel IH par d rest s htreed hndd hpnd hceq
      have hscname : ∀ j, (getTask sc j).name = (getTask s j).name :=
        fun j => ((hshapec.2 j).1)
      have hscsub : ∀ x, subtreeNames fuel sc x = subtreeNames fuel s x :=
        fun x => subtreeNames_congr hshapec fuel x
      have hscflat : (rest.map (fun x => subtreeNames fuel sc x)).flatten
          = (rest.map (fun x => subtreeNames fuel s x)).flatten := by
        rw [show rest.map (fun x => subtreeNames fuel sc x)
            = rest.map (fun x => subtreeNames fuel s x) from
          list_map_congr (fun x _ => hscsub x)]
      have hfilesub : ∀ (x : Nat), x ∈ rest → ∀ q g, q ∈ subtreeNames fuel s x →
          fileExists sc.files q g = fileExists s.files q g := by
        intro x hx q g hq
        have hqfr : q ∈ (rest.map (fun y => subtreeNames fuel s y)).flatten :=
          List.mem_flatten.mpr ⟨subtreeNames fuel s x,
            List.mem_map.mpr ⟨x, hx, rfl⟩, hq⟩
        refine hfilesc q g (fun hc => hpnfr ?_) (fun hm => hdisj hm hqfr)
        rw [← hc.1]
        exact hqfr
      have hparc : par < sc.tasks.length := by
        rw [hshapec.1]
        exact hpar
      have htreesc : ∀ x ∈ rest, treeOK fuel sc x = true := by
        intro x hx
        rw [treeOK_congr hshapec fuel x]
        exact htrees x (List.mem_cons_of_mem d hx)
      have hnodupc : ((getTask sc par).name
          :: (rest.map (fun x => subtreeNames fuel sc x)).flatten).Nodup := by
        rw [hscname par, hscflat]
        exact List.nodup_cons.mpr ⟨hpnfr, hndfr⟩
      obtain ⟨d0, hd0, hd0c⟩ := hex
      have hd0r : d0 ∈ rest := by
        rcases List.mem_cons.mp hd0 with he | hr
        · exfalso
          rw [he, hceq] at hd0c
          exact Bool.noConfusion hd0c
        · exact hr
      have hexc : ∃ x ∈ rest, evalCompleted fuel sc x = false := by
        refine ⟨d0, hd0r, ?_⟩
        rw [evalCompleted_congr hshapec fuel d0 (fun q g hq => hfilesub d0 hd0r q g hq)]
        exact hd0c
      obtain ⟨s2, hloop2, hparent2, hshape2, hents2, hfiles2, d1, hd1, hd1c⟩ :=
        ih sc hparc htreesc hnodupc hexc
      refine ⟨s2, by rw [hstep]; exact hloop2, ?_,
        sameShape_trans hshapec hshape2, ?_, ?_,
        d1, List.mem_cons_of_mem d hd1, hd1c⟩
      · rw [hparent2, hentsc par hpnd]
      · intro j hj
        rw [hmapflat] at hj
        have hjd : (getTask s j).name ∉ subtreeNames fuel s d := fun hm =>
          hj (List.mem_cons_of_mem _ (List.mem_append.mpr (Or.inl hm)))
        have hjfr : (getTask s j).name
            ∉ (rest.map (fun x => subtreeNames fuel s x)).flatten := fun hm =>
          hj (List.mem_cons_of_mem _ (List.mem_append.mpr (Or.inr hm)))
        have hjpn : (getTask s j).name ≠ (getTask s par).name := fun e =>
          hj (by rw [e]; exact List.mem_cons_self _ _)
        have h2 : getTask s2 j = getTask sc j := by
          refine hents2 j ?_
          rw [hscname j, hscname par, hscflat]
          intro hm
          rcases List.mem_cons.mp hm with he | hr
          · exact hjpn he
          · exact hjfr hr
        rw [h2]
        exact hentsc j hjd
      · intro q g hqg hqm
        rw [hmapflat] at hqm
        have hqd : q ∉ subtreeNames fuel s d :=
          fun hm => hqm (List.mem_append.mpr (Or.inl hm))
        have hqfr : q ∉ (rest.map (fun x => subtreeNames fuel s x)).flatten :=
          fun hm => hqm (List.mem_append.mpr (Or.inr hm))
        have h2 : fileExists s2.files q g = fileExists sc.files q g := by
          refine hfiles2 q g ?_ ?_
          · rw [hscname par]
            exact hqg
          · rw [hscflat]
            exact hqfr
        rw [h2]
        exact hfilesc q g hqg hqd
    · have hcf : evalCompleted fuel s d = false := boolEqFalse hceq
      obtain ⟨s1, hchk, hshape1, hents1, hfiles1, hcomp1, hstat1⟩ := IH s d htreed hndd
      have hstep := checkDepsLoopWith_cons_step (checkStatus fuel) par d rest s s1 hchk
      have hcond : (getTask s1 d).completed = false := hcomp1.trans hcf
      rw [hstep, if_pos hcond]
      have hpar1 : par < s1.tasks.length := by
        rw [hshape1.1]
        exact hpar
      have hpars1 : getTask s1 par = getTask s par := hents1 par hpnd
      refine ⟨_, rfl, ?_,
        sameShape_trans hshape1
          (sameShape_setTask s1 par _ (fun _ => ⟨rfl, rfl, rfl⟩)), ?_, ?_,
        d, List.mem_cons_self d rest, ?_⟩
      · rw [getTask_setTask_same _ _ _ hpar1, hpars1]
      · intro j hj
        rw [hmapflat] at hj
        have hjd : (getTask s j).name ∉ subtreeNames fuel s d := fun hm =>
          hj (List.mem_cons_of_mem _ (List.mem_append.mpr (Or.inl hm)))
        have hjpn : (getTask s j).name ≠ (getTask s par).name := fun e =>
          hj (by rw [e]; exact List.mem_cons_self _ _)
        have hjpar : j ≠ par := by
          intro e
          rw [e] at hjpn
          exact hjpn rfl
        rw [getTask_setTask_other _ _ _ _ hjpar]
        exact hents1 j hjd
      · intro q g _ hqm
        rw [hmapflat] at hqm
        have hqd : q ∉ subtreeNames fuel s d :=
          fun hm => hqm (List.mem_append.mpr (Or.inl hm))
        rw [setTask_files]
        exact hfiles1 q g hqd
      · rw [getTask_setTask_other _ _ _ _ hdpar]
        exact hcond

theorem subtreeNames_leaf (fuel : Nat) (s : Sys) (i : Nat)
    (h : (getTask s i).isParent = false) :
    subtreeNames (fuel + 1) s i = [(getTask s i).name] := by
  simp [subtreeNames, h]

theorem subtreeNames_parent (fuel : Nat) (s : Sys) (i : Nat)
    (h : (getTask s i).isParent = true) :
    subtreeNames (fuel + 1) s i =
      (getTask s i).name
        :: ((getTask s i).deps.map (fun d => subtreeNames fuel s d)).flatten := by
  simp [subtreeNames, h]

theorem evalCompleted_leaf (fuel : Nat) (s : Sys) (i : Nat)
    (h : (getTask s i).isParent = false) :
    evalCompleted (fuel + 1) s i =
      (fileExists s.files (getTask s i).name "SUCCESS" ||
        fileExists s.files (getTask s i).name "FAILED") := by
  simp [evalCompleted, h]

theorem evalCompleted_parent (fuel : Nat) (s : Sys) (i : Nat)
    (h : (getTask s i).isParent = true) :
    evalCompleted (fuel + 1) s i =
      (getTask s i).deps.all (fun d => evalCompleted fuel s d) := by
  simp [evalCompleted, h]

theorem evalSuccess_leaf (fuel : Nat) (s : Sys) (i : Nat)
    (h : (getTask s i).isParent = false) :
    evalSuccess (fuel + 1) s i =
      fileExists s.files (getTask s i).name "SUCCESS" := by
  simp [evalSuccess, h]

theorem evalSuccess_parent (fuel : Nat) (s : Sys) (i : Nat)
    (h : (getTask s i).isParent = true) :
    evalSuccess (fuel + 1) s i =
      ((getTask s i).deps.all (fun d => evalSuccess fuel s d) &&
        !fileExists s.files (getTask s i).name "FAILED") := by
  simp [evalSuccess, h]

theorem list_any_not {α : Type} (l : List α) (p : α → Bool) :
    l.any (fun a => !p a) = !l.all p := by
  induction l with
  | nil => rfl
  | cons a t ih =>
    simp only [List.any_cons, List.all_cons, ih]
    cases p a <;> cases t.all p <;> rfl

theorem checkStatus_spec :
    ∀ (fuel : Nat) (sx : Sys) (dx : Nat), treeOK fuel sx dx = true →
      (subtreeNames fuel sx dx).Nodup →
      ∃ s2, checkStatus fuel dx sx = some s2 ∧ sameShape sx s2 ∧
        (∀ j, (getTask sx j).name ∉ subtreeNames fuel sx dx →
          getTask s2 j = getTask sx j) ∧
        (∀ q g, q ∉ subtreeNames fuel sx dx →
          fileExists s2.files q g = fileExists sx.files q g) ∧
        (getTask s2 dx).completed = evalCompleted fuel sx dx ∧
        (if evalCompleted fuel sx dx = true then
          (getTask s2 dx).status =
            some (if evalSuccess fuel sx dx = true then "SUCCESS" else "FAILED")
        else (getTask s2 dx).status = (getTask sx dx).status) := by
  intro fuel
  induction fuel with
  | zero =>
    intro s i htree _
    exact Bool.noConfusion htree
  | succ fuel ih =>
    intro s i htree hnodup
    obtain ⟨hilt, hdeps⟩ := treeOK_succ_elim htree
    by_cases hp : (getTask s i).isParent = true
    · have hsub := subtreeNames_parent fuel s i hp
      rw [hsub] at hnodup
      have hEc := evalCompleted_parent fuel s i hp
      have hEs := evalSuccess_parent fuel s i hp
      have htreesd := hdeps hp
      by_cases hall : ∀ d ∈ (getTask s i).deps, evalCompleted fuel s d = true
      · obtain ⟨s1, hloop, hshape1, hpar1, hents1, hfiles1, hfail1, hdeps1⟩ :=
          checkDepsLoopSpec_complete fuel ih i (getTask s i).deps s hilt htreesd
            hnodup hall
        have hi1 : i < s1.tasks.length := by
          rw [hshape1.1]
          exact hilt
        have hname1 : (getTask s1 i).name = (getTask s i).name := by rw [hpar1]
        have hA :=  List.all_eq_true.mpr hall
        refine ⟨finalizeParent s1 i, ?_, ?_, ?_, ?_, ?_, ?_⟩
        · rw [checkStatus_parent fuel i s hp, hloop]
        · exact sameShape_trans hshape1 (sameShape_finalizeParent s1 i)
        · intro j hj
          rw [hsub] at hj
          have hjne : j ≠ i := by
            intro e
            rw [e] at hj
            exact hj (List.mem_cons_self _ _)
          rw [getTask_finalizeParent_other s1 i j hjne]
          exact hents1 j hj
        · intro q g hq
          rw [hsub] at hq
          have hqn : q ≠ (getTask s i).name := fun e =>
            hq (by rw [e]; exact List.mem_cons_self _ _)
          have hqf : q ∉ ((getTask s i).deps.map (fun d => subtreeNames fuel s d)).flatten :=
            fun hm => hq (List.mem_cons_of_mem _ hm)
          rw [finalizeParent_files_ne s1 i q g (fun hc => hqn (hc.1.trans hname1))]
          exact hfiles1 q g (fun hc => hqn hc.1) hqf
        · rw [getTask_finalizeParent s1 i hi1, hEc]
          exact hA.symm
        · rw [hEc, hEs, if_pos hA, getTask_finalizeParent s1 i hi1]
          show (if fileExists s1.files (getTask s1 i).name "FAILED" then some "FAILED"
            else some "SUCCESS") = _
          rw [hname1, hfail1, list_any_not]
          cases hb : fileExists s.files (getTask s i).name "FAILED" <;>
            cases ha : (getTask s i).deps.all (fun d => evalSuccess fuel s d) <;> rfl
      · have hex : ∃ d ∈ (getTask s i).deps, evalCompleted fuel s d = false := by
          push_neg at hall
          obtain ⟨d, hdm, hdc⟩ := hall
          exact ⟨d, hdm, boolEqFalse hdc⟩
        have hAf : (getTask s i).deps.all (fun d => evalCompleted fuel s d) = false := by
          by_cases hA : (getTask s i).deps.all (fun d => evalCompleted fuel s d) = true
          · obtain ⟨d, hdm, hdc⟩ := hex
            rw [List.all_eq_true.mp hA d hdm] at hdc
            exact Bool.noConfusion hdc
          · exact boolEqFalse hA
        obtain ⟨s1, hloop, hpar1, hshape1, hents1, hfiles1, -⟩ :=
          checkDepsLoopSpec_incomplete fuel ih i (getTask s i).deps s hilt htreesd
            hnodup hex
        refine ⟨s1, ?_, hshape1, ?_, ?_, ?_, ?_⟩
        · rw [checkStatus_parent fuel i s hp, hloop]
        · intro j hj
          rw [hsub] at hj
          exact hents1 j hj
        · intro q g hq
          rw [hsub] at hq
          have hqn : q ≠ (getTask s i).name := fun e =>
            hq (by rw [e]; exact List.mem_cons_self _ _)
          exact hfiles1 q g (fun hc => hqn hc.1)
            (fun hm => hq (List.mem_cons_of_mem _ hm))
        · rw [hpar1, hEc, hAf]
        · rw [hEc, hAf, if_neg (fun h => Bool.noConfusion h), hpar1]
    · have hleaf : (getTask s i).isParent = false := boolEqFalse hp
      refine ⟨leafCheck s i, checkStatus_leaf fuel i s hleaf,
        sameShape_leafCheck s i, ?_, ?_, ?_, ?_⟩
      · intro j hj
        rw [subtreeNames_leaf fuel s i hleaf] at hj
        have hji : j ≠ i := by
          intro e
          rw [e] at hj
          exact hj (List.mem_cons_self _ _)
        exact getTask_leafCheck_other s i j hji
      · intro q g _
        rw [leafCheck_files]
      · rw [evalCompleted_leaf fuel s i hleaf]
        by_cases hS : fileExists s.files (getTask s i).name "SUCCESS" = true
        · rw [hS, (getTask_leafCheck_success s i hilt hS).2]
          rfl
        · have hSf := boolEqFalse hS
          by_cases hF : fileExists s.files (getTask s i).name "FAILED" = true
          · rw [hSf, hF, (getTask_leafCheck_failed s i hilt hSf hF).2]
            rfl
          · have hFf := boolEqFalse hF
            rw [hSf, hFf, (getTask_leafCheck_pending s i hilt hSf hFf).2]
            rfl
      · rw [evalCompleted_leaf fuel s i hleaf, evalSuccess_leaf fuel s i hleaf]
        by_cases hS : fileExists s.files (getTask s i).name "SUCCESS" = true
        · rw [hS]
          exact (getTask_leafCheck_success s i hilt hS).1
        · have hSf := boolEqFalse hS
          by_cases hF : fileExists s.files (getTask s i).name "FAILED" = true
          · rw [hSf, hF]
            exact (getTask_leafCheck_failed s i hilt hSf hF).1
          · have hFf := boolEqFalse hF
            rw [hSf, hFf]
            exact (getTask_leafCheck_pending s i hilt hSf hFf).1

/-- Claim C2 (amended): for every parent unit over a well-formed dependency
tree (every unit on disk, pairwise-distinct unit directories) whose own
directory holds no pre-existing FAILED marker, check_status leaves the
parent incomplete with its status untouched whenever some dependency is
still incomplete after its recursive check; once every dependency comes
out completed, the parent is completed and its status is SUCCESS exactly
when every dependency's status is SUCCESS, and FAILED otherwise
(tasks.py lines 104-136). The dependencies may themselves be parents of
arbitrary depth. -/
theorem c2_parent_aggregation (fuel : Nat) (s : Sys) (i : Nat)
    (hp : (getTask s i).isParent = true)
    (htree : treeOK (fuel + 1) s i = true)
    (hnodup : (subtreeNames (fuel + 1) s i).Nodup)
    (hstale : fileExists s.files (getTask s i).name "FAILED" = false) :
    ∃ s2, checkStatus (fuel + 1) i s = some s2 ∧
      ((∀ d ∈ (getTask s i).deps, (getTask s2 d).completed = true) →
        (getTask s2 i).completed = true ∧
        ((getTask s2 i).status = some "SUCCESS" ↔
          ∀ d ∈ (getTask s i).deps, (getTask s2 d).status = some "SUCCESS") ∧
        ((getTask s2 i).status = some "SUCCESS" ∨
         (getTask s2 i).status = some "FAILED")) ∧
      ((∃ d ∈ (getTask s i).deps, (getTask s2 d).completed = false) →
        (getTask s2 i).completed = false ∧
        (getTask s2 i).status = (getTask s i).status) := by
  obtain ⟨hilt, hdeps⟩ := treeOK_succ_elim htree
  have htreesd := hdeps hp
  have hsub := subtreeNames_parent fuel s i hp
  rw [hsub] at hnodup
  rw [checkStatus_parent fuel i s hp]
  by_cases hall : ∀ d ∈ (getTask s i).deps, evalCompleted fuel s d = true
  · obtain ⟨s1, hloop, hshape1, hpar1, hents1, hfiles1, hfail1, hdeps1⟩ :=
      checkDepsLoopSpec_complete fuel (fun sx dx => checkStatus_spec fuel sx dx) i
        (getTask s i).deps s hilt htreesd hnodup hall
    rw [hloop]
    have hdne : ∀ d ∈ (getTask s i).deps, d ≠ i := by
      intro d hd e
      have h1 : (getTask s d).name ∈ subtreeNames fuel s d :=
        name_mem_subtreeNames (htreesd d hd)
      have h2 : (getTask s d).name
          ∈ ((getTask s i).deps.map (fun x => subtreeNames fuel s x)).flatten :=
        List.mem_flatten.mpr ⟨subtreeNames fuel s d,
          List.mem_map.mpr ⟨d, hd, rfl⟩, h1⟩
      rw [e] at h2
      exact (List.nodup_cons.mp hnodup).1 h2
    have hentd : ∀ d ∈ (getTask s i).deps,
        getTask (finalizeParent s1 i) d = getTask s1 d :=
      fun d hd => getTask_finalizeParent_other s1 i d (hdne d hd)
    have hi1 : i < s1.tasks.length := by
      rw [hshape1.1]
      exact hilt
    have hgf := getTask_finalizeParent s1 i hi1
    have hname1 : (getTask s1 i).name = (getTask s i).name := by rw [hpar1]
    have hmark : fileExists s1.files (getTask s1 i).name "FAILED" =
        (getTask s i).deps.any (fun d => !evalSuccess fuel s d) := by
      rw [hname1, hfail1, hstale, Bool.false_or]
    have hcompl : (getTask (finalizeParent s1 i) i).completed = true := by
      rw [hgf]
    refine ⟨finalizeParent s1 i, rfl, ?_, ?_⟩
    · intro _
      cases hb : (getTask s i).deps.any (fun d => !evalSuccess fuel s d) with
      | false =>
        have hstat : (getTask (finalizeParent s1 i) i).status = some "SUCCESS" := by
          rw [hgf]
          simp [hmark, hb]
        have hAllS : ∀ d ∈ (getTask s i).deps,
            (getTask (finalizeParent s1 i) d).status = some "SUCCESS" := by
          intro d hd
          rw [hentd d hd]
          refine (hdeps1 d hd).2.mpr ?_
          by_cases hs : evalSuccess fuel s d = true
          · exact hs
          · exfalso
            have hx : (getTask s i).deps.any (fun x => !evalSuccess fuel s x) = true :=
              List.any_eq_true.mpr ⟨d, hd, by rw [boolEqFalse hs]; rfl⟩
            rw [hb] at hx
            exact Bool.noConfusion hx
        exact ⟨hcompl, iff_of_true hstat hAllS, Or.inl hstat⟩
      | true =>
        have hstat : (getTask (finalizeParent s1 i) i).status = some "FAILED" := by
          rw [hgf]
          simp [hmark, hb]
        have hNotAll : ¬∀ d ∈ (getTask s i).deps,
            (getTask (finalizeParent s1 i) d).status = some "SUCCESS" := by
          intro hAll
          obtain ⟨d, hd, hpd⟩ := List.any_eq_true.mp hb
          have hpd2 : (!evalSuccess fuel s d) = true := hpd
          have hsd := hAll d hd
          rw [hentd d hd] at hsd
          rw [(hdeps1 d hd).2.mp hsd] at hpd2
          exact Bool.noConfusion hpd2
        refine ⟨hcompl, iff_of_false ?_ hNotAll, Or.inr hstat⟩
        rw [hstat]
        decide
    · intro hex2
      exfalso
      obtain ⟨d, hd, hdc⟩ := hex2
      rw [hentd d hd, (hdeps1 d hd).1] at hdc
      exact Bool.noConfusion hdc
  · have hex : ∃ d ∈ (getTask s i).deps, evalCompleted fuel s d = false := by
      push_neg at hall
      obtain ⟨d, hdm, hdc⟩ := hall
      exact ⟨d, hdm, boolEqFalse hdc⟩
    obtain ⟨s1, hloop, hpar1, hshape1, hents1, hfiles1, d0, hd0, hd0c⟩ :=
      checkDepsLoopSpec_incomplete fuel (fun sx dx => checkStatus_spec fuel sx dx) i
        (getTask s i).deps s hilt htreesd hnodup hex
    rw [hloop]
    refine ⟨s1, rfl, ?_, ?_⟩
    · intro hall2
      exfalso
      rw [hall2 d0 hd0] at hd0c
      exact Bool.noConfusion hd0c
    · intro _
      rw [hpar1]
      exact ⟨rfl, rfl⟩

/-- Claim C2 witness: on the two-level tree whose root parent depends on
an intermediate parent over one successful leaf, with both parent
directories clean, check_status completes the root with status SUCCESS. -/
theorem c2_parent_aggregation_witness :
    ∃ s2, checkStatus 3 0 c2NestedState = some s2 ∧
      ((∀ d ∈ (getTask c2NestedState 0).deps, (getTask s2 d).completed = true) →
        (getTask s2 0).completed = true ∧
        ((getTask s2 0).status = some "SUCCESS" ↔
          ∀ d ∈ (getTask c2NestedState 0).deps, (getTask s2 d).status = some "SUCCESS") ∧
        ((getTask s2 0).status = some "SUCCESS" ∨
         (getTask s2 0).status = some "FAILED")) ∧
      ((∃ d ∈ (getTask c2NestedState 0).deps, (getTask s2 d).completed = false) →
        (getTask s2 0).completed = false ∧
        (getTask s2 0).status = (getTask c2NestedState 0).status) :=
  c2_parent_aggregation 2 c2NestedState 0 (by decide) (by decide) (by decide) (by decide)
